import Mathlib

/-!
Verification of the TestPilot test-generation engine.

Strings are modelled as `List Char`.  External collaborators (the espree
parser, the completion model, the test validator, the snippet map) are
parameters of the embedding, collected in the `Env` structure below.
All definitions are translated from the TypeScript source
(`promptCrafting.ts`, `syntax.ts`, `testResultCollector.ts`,
`generateTests.ts`, `benchmark/run.ts`).
-/

set_option maxHeartbeats 1000000
set_option maxRecDepth 100000

/-- Convert a string literal to the `List Char` representation used throughout. -/
def str (s : String) : List Char := s.toList

/-- The character set of the JavaScript regex class `\s` (ASCII part plus NBSP
and BOM), also used by `String.prototype.trim`. -/
def isJsWs (c : Char) : Bool :=
  c = ' ' || c = '\t' || c = '\n' || c = '\r' ||
  c = Char.ofNat 11 || c = Char.ofNat 12 || c = Char.ofNat 0xa0 || c = Char.ofNat 0xfeff

/-- Drop trailing whitespace (the tail end of `String.prototype.trim`). -/
def trimRight (s : List Char) : List Char :=
  (s.reverse.dropWhile isJsWs).reverse

/-- JavaScript `String.prototype.trim`. -/
def jsTrim (s : List Char) : List Char :=
  trimRight (s.dropWhile isJsWs)

/-- JavaScript `code.split(sep)` for a single-character separator: always
returns a non-empty list of (possibly empty) chunks. -/
def splitOnChar (sep : Char) : List Char → List (List Char)
  | [] => [[]]
  | c :: cs =>
    match splitOnChar sep cs with
    | [] => [[]]
    | l :: ls => if c = sep then [] :: l :: ls else (c :: l) :: ls

/-- Decimal rendering of a natural number, for `test_<id>.js` / `prompt_<id>.js`. -/
def natStr (n : Nat) : List Char := Nat.toDigits 10 n

/- ------------------------------------------------------------------ -/
/- syntax.ts                                                           -/
/- ------------------------------------------------------------------ -/

/-- The closing bracket corresponding to an opening bracket (`closing` map in
syntax.ts), `none` for non-bracket characters. -/
def closingOf (c : Char) : Option Char :=
  if c = '(' then some ')'
  else if c = '\x7b' then some '\x7d'
  else if c = '[' then some ']'
  else none

/-- Membership in the set `closers` of syntax.ts. -/
def isCloser (c : Char) : Bool :=
  c = ')' || c = '\x7d' || c = ']'

/-- The scanning loop of `closeBrackets`: `brackets` is the list of outstanding
expected closing brackets (innermost first).  `inComment` is true while
skipping a `//` line comment.  Returns the outstanding closers at the end of
the scan, or `none` on a mismatched closing bracket. -/
def cbRun (inComment : Bool) (brackets : List Char) : List Char → Option (List Char)
  | [] => some brackets
  | c :: rest =>
    if inComment then
      if c = '\n' then cbRun false brackets rest else cbRun true brackets rest
    else if c = '/' ∧ rest.head? = some '/' then cbRun true brackets rest
    else
      match closingOf c with
      | some cl => cbRun false (cl :: brackets) rest
      | none =>
        if isCloser c then
          match brackets with
          | [] => none
          | b :: bs => if b = c then cbRun false bs rest else none
        else cbRun false brackets rest

/-- A string is balanced when the `closeBrackets` scan ends with no
outstanding expected closers. -/
def isBalanced (s : List Char) : Prop := cbRun false [] s = some []

instance (s : List Char) : Decidable (isBalanced s) := by
  unfold isBalanced; infer_instance

/-- `closeBrackets` from syntax.ts.  The espree parse is the external oracle
`parses`; on success the TypeScript function returns the suffixed source
together with its AST — we keep only the source, which is all the engine
uses. -/
def closeBrackets (parses : List Char → Bool) (code : List Char) : Option (List Char) :=
  match cbRun false [] code with
  | none => none
  | some brackets => if parses (code ++ brackets) then some (code ++ brackets) else none

/-- Does the string match `/[;})]\s*$/` — i.e. end with `;`, `}` or `)`
modulo trailing whitespace? -/
def endsWithCloserModWs (s : List Char) : Bool :=
  match s.reverse.dropWhile isJsWs with
  | [] => false
  | c :: _ => c = ';' || c = '\x7d' || c = ')'

/-- `completion.slice(0, endOfLastLine)` of trimCompletion: the prefix before
the last newline, or the empty string when there is no newline. -/
def dropAfterLastNewline (s : List Char) : List Char :=
  ((s.reverse.dropWhile (fun c => !(c = '\n'))).drop 1).reverse

/-- The closing-bracket truncation loop of `trimCompletion`: `depth` is the
number of currently open `{`/`(`; the completion is cut just before the first
closer that would make the count negative. -/
def bracketTruncate : Nat → List Char → List Char
  | _, [] => []
  | depth, c :: rest =>
    if c = '\x7b' || c = '(' then c :: bracketTruncate (depth + 1) rest
    else if c = '\x7d' || c = ')' then
      match depth with
      | 0 => []
      | d + 1 => c :: bracketTruncate d rest
    else c :: bracketTruncate depth rest

/-- `trimCompletion` from syntax.ts. -/
def trimCompletion (s : List Char) : List Char :=
  let s1 := if endsWithCloserModWs s then s else dropAfterLastNewline s
  jsTrim (bracketTruncate 0 s1)

/-- `commentOut` from syntax.ts: comment out the given code line by line. -/
def commentOut (code : List Char) : List Char :=
  let lines := splitOnChar '\n' code
  let lines2 := match lines.getLast? with
    | some [] => lines.dropLast
    | _ => lines
  (lines2.map (fun l => str "// " ++ l ++ ['\n'])).flatten

/-- `line.replace("*", "")`: remove the first occurrence of a character. -/
def removeFirstChar (t : Char) : List Char → List Char
  | [] => []
  | c :: cs => if c = t then cs else c :: removeFirstChar t cs

/-- `trimAndCombineDocComment` from syntax.ts. -/
def trimAndCombineDocComment (docComment : List Char) : List Char :=
  commentOut
    (List.intercalate ['\n']
      (((splitOnChar '\n' docComment).map (fun l => jsTrim (removeFirstChar '*' l))).filter
        (fun l => !(l = []))))

/- ------------------------------------------------------------------ -/
/- exploreAPI.ts                                                       -/
/- ------------------------------------------------------------------ -/

/-- `FunctionDescriptor` from exploreAPI.ts (the `type: "function"` tag is
implicit). -/
structure FunctionDescriptor where
  signature : List Char
  isAsync : Bool
  implementation : List Char
  isConstructor : Bool
  docComment : Option (List Char)
deriving DecidableEq, Repr

/-- `APIFunction` from exploreAPI.ts. -/
structure APIFunction where
  accessPath : List Char
  descriptor : FunctionDescriptor
  packageName : List Char
deriving DecidableEq, Repr

/-- The `signature` getter of `APIFunction`. -/
def APIFunction.signature (f : APIFunction) : List Char :=
  (if f.descriptor.isConstructor then str "class " else []) ++
  f.accessPath ++ f.descriptor.signature ++
  (if f.descriptor.isAsync then str " async" else [])

/-- The `functionName` getter of `APIFunction`: the last dot-separated
component of the access path. -/
def APIFunction.functionName (f : APIFunction) : List Char :=
  (splitOnChar '.' f.accessPath).getLastD []

/-- `sanitizePackageName` from exploreAPI.ts: replace every character outside
`[a-zA-Z0-9_$]` with an underscore. -/
def sanitizePackageName (s : List Char) : List Char :=
  s.map (fun c =>
    if ('a' ≤ c ∧ c ≤ 'z') ∨ ('A' ≤ c ∧ c ≤ 'Z') ∨ ('0' ≤ c ∧ c ≤ '9') ∨ c = '_' ∨ c = '$'
    then c else '_')

/- ------------------------------------------------------------------ -/
/- promptCrafting.ts: prompt data model and assembly                   -/
/- ------------------------------------------------------------------ -/

/-- `PromptOptions` from promptCrafting.ts. -/
structure PromptOptions where
  includeSnippets : Bool
  includeDocComment : Bool
  includeFunctionBody : Bool
deriving DecidableEq, Repr

/-- `defaultPromptOptions()`. -/
def defaultPromptOptions : PromptOptions :=
  { includeSnippets := false, includeDocComment := false, includeFunctionBody := false }

/-- `PromptProvenance` from promptCrafting.ts.  Prompt objects are identified
by the allocation id the engine model assigns them (JavaScript object
identity). -/
structure Provenance where
  originalPrompt : Nat
  testId : Nat
  refiner : List Char
deriving DecidableEq, Repr

/-- The payload distinguishing a `RetryPrompt` from a plain `Prompt`: the
failing completion body and the error message. -/
structure RetryInfo where
  body : List Char
  err : List Char
deriving DecidableEq, Repr

/-- The state of one `Prompt` (or `RetryPrompt`) object: the constructor
arguments plus the mutable provenance list.  A `RetryPrompt` carries
`retry = some _`; its inherited fields are built from the same
function/snippets/options as the prompt it retries (per its `super` call). -/
structure PromptData where
  fn : APIFunction
  usageSnippets : List (List Char)
  options : PromptOptions
  retry : Option RetryInfo
  provenance : List Provenance
deriving DecidableEq, Repr

/-- The `imports` field computed in the `Prompt` constructor. -/
def importsOf (fn : APIFunction) : List Char :=
  str "let mocha = require('mocha');\nlet assert = require('assert');\nlet " ++
  sanitizePackageName fn.packageName ++ str " = require('" ++ fn.packageName ++ str "');\n"

/-- The `suiteHeader` field of a `Prompt`. -/
def suiteHeaderOf (fn : APIFunction) : List Char :=
  str "describe('test " ++ sanitizePackageName fn.packageName ++ str "', function() \x7b\n"

/-- The `testHeader` field of a `Prompt`. -/
def testHeaderOf (fn : APIFunction) : List Char :=
  str "    it('test " ++ fn.accessPath ++ str "', function(done) \x7b\n"

/-- The `docComment` field of a `Prompt` (empty unless `includeDocComment`). -/
def docCommentSection (p : PromptData) : List Char :=
  if p.options.includeDocComment then
    trimAndCombineDocComment (p.fn.descriptor.docComment.getD [])
  else []

/-- The `functionBody` field of a `Prompt` (empty unless `includeFunctionBody`). -/
def functionBodySection (p : PromptData) : List Char :=
  if p.options.includeFunctionBody then commentOut p.fn.descriptor.implementation else []

/-- `assembleUsageSnippets` from promptCrafting.ts. -/
def assembleUsageSnippets (p : PromptData) : List Char :=
  if p.options.includeSnippets then
    ((p.usageSnippets.enum).map (fun e =>
      str "// usage #" ++ natStr (e.1 + 1) ++ ['\n'] ++
      ((splitOnChar '\n' e.2).map (fun l => str "// " ++ l ++ ['\n'])).flatten)).flatten
  else []

/-- `Prompt.assemble()` for a plain (non-retry) prompt. -/
def plainAssemble (p : PromptData) : List Char :=
  importsOf p.fn ++ assembleUsageSnippets p ++ docCommentSection p ++
  commentOut p.fn.signature ++ functionBodySection p ++
  suiteHeaderOf p.fn ++ testHeaderOf p.fn

/-- The regex replace `src.replace(/\}\)\}\)$/, repl)`: if `src` ends with
the four characters `})})`, replace that suffix by `repl`. -/
def replaceClosingSuffix (repl src : List Char) : List Char :=
  if (str "\x7d)\x7d)").isSuffixOf src then src.take (src.length - 4) ++ repl else src

/-- `RetryPrompt.assemble()`.  The locals `raw` and `failingTest` of the
source are inlined. -/
def retryAssemble (parses : List Char → Bool) (p : PromptData) (r : RetryInfo) : List Char :=
  (match closeBrackets parses (plainAssemble p ++ r.body ++ ['\n']) with
   | some src => replaceClosingSuffix (str "    \x7d)\n") src
   | none => plainAssemble p ++ r.body ++ ['\n'] ++ str "    \x7d)\n") ++
  str "    // the test above fails with the following error:\n" ++
  str "    //   " ++ r.err ++ ['\n'] ++
  str "    // fixed test:\n" ++
  testHeaderOf p.fn

/-- `assemble()`, dispatching on whether the prompt is a `RetryPrompt`. -/
def assemble (parses : List Char → Bool) (p : PromptData) : List Char :=
  match p.retry with
  | none => plainAssemble p
  | some r => retryAssemble parses p r

/-- `body.replace(/^(?=\S)/, " ".repeat(8))`: indent the first line by eight
spaces when it starts with a non-whitespace character. -/
def indentFirst (body : List Char) : List Char :=
  match body with
  | [] => []
  | c :: _ => if isJsWs c then body else str "        " ++ body

/-- `Prompt.completeTest(body, stubOutHeaders)`. -/
def completeTest (parses : List Char → Bool) (p : PromptData) (body : List Char)
    (stubOutHeaders : Bool) : Option (List Char) :=
  let pre := importsOf p.fn ++
    (if stubOutHeaders then
      str "describe('test suite', function() \x7b\n    it('test case', function(done) \x7b\n"
     else suiteHeaderOf p.fn ++ testHeaderOf p.fn)
  (closeBrackets parses (pre ++ indentFirst body ++ ['\n'])).map
    (replaceClosingSuffix (str "    \x7d)\n\x7d)"))

/- ------------------------------------------------------------------ -/
/- report.ts: test outcomes and test infos                             -/
/- ------------------------------------------------------------------ -/

/-- `ITestFailureInfo` from report.ts. -/
structure TestFailureInfo where
  message : List Char
  errCode : Option (List Char)
  stack : Option (List Char)
deriving DecidableEq, Repr

/-- `TestOutcome` from report.ts. -/
inductive TestOutcome where
  | passed (coverageReport coverageData : Option (List Char))
  | pending
  | other
  | failed (err : TestFailureInfo)
deriving DecidableEq, Repr

/-- `outcome.status === TestStatus.PASSED`. -/
def TestOutcome.isPassed : TestOutcome → Bool
  | .passed _ _ => true
  | _ => false

/-- `outcome.status === TestStatus.FAILED`. -/
def TestOutcome.isFailed : TestOutcome → Bool
  | .failed _ => true
  | _ => false

/-- The `err.message` of a failed outcome (only read in the FAILED case). -/
def TestOutcome.errMessage : TestOutcome → List Char
  | .failed e => e.message
  | _ => []

/-- `ITestInfo` from report.ts.  `prompts` holds the allocation ids of the
prompt objects that gave rise to this test. -/
structure TestInfo where
  id : Nat
  testName : List Char
  outcome : TestOutcome
  testSource : List Char
  prompts : List Nat
  api : List Char
deriving DecidableEq, Repr

/-- `IPromptInfo` from testResultCollector.ts.  `promptId` is the allocation
id of the prompt object used as the map key; `completions` models the set of
completions in iteration order. -/
structure PromptInfo where
  promptId : Nat
  id : Nat
  file : List Char
  temperature : Rat
  completions : List (List Char)
deriving DecidableEq, Repr

/- ------------------------------------------------------------------ -/
/- testResultCollector.ts: BaseTestResultCollector                     -/
/- ------------------------------------------------------------------ -/

/-- The state of a `BaseTestResultCollector`: `tests` models the
source-keyed `Map<string, ITestInfo>` in insertion order, `promptInfos` the
object-keyed `Map<Prompt, IPromptInfo>` in insertion order. -/
structure CollectorState where
  tests : List TestInfo
  promptInfos : List PromptInfo
deriving DecidableEq, Repr

/-- `recordTestInfo(testSource, prompt, api)`: if the source is known, append
the prompt to the existing record (in place) and return it; otherwise create
a fresh record with the next id and outcome OTHER.  The in-place mutation of
the JavaScript Map entry is modelled by a keyed map-replace; the key set of a
Map is duplicate-free, which the collector invariant below maintains. -/
def recordTestInfo (source : List Char) (pid : Nat) (api : List Char)
    (c : CollectorState) : TestInfo × CollectorState :=
  match c.tests.find? (fun t => decide (t.testSource = source)) with
  | some t =>
    let t' := { t with prompts := t.prompts ++ [pid] }
    (t', { c with tests := c.tests.map (fun u => if u.testSource = source then t' else u) })
  | none =>
    let id := c.tests.length
    let t : TestInfo :=
      { id := id, testName := str "test_" ++ natStr id ++ str ".js",
        outcome := .other, testSource := source, prompts := [pid], api := api }
    (t, { c with tests := c.tests ++ [t] })

/-- `recordTestResult(test, temperature, outcome)`: overwrite the outcome of
the given test object (identified by its id; ids are unique in reachable
states).  The temperature is accepted but not stored, as in the source. -/
def recordTestResult (testId : Nat) (_temperature : Rat) (outcome : TestOutcome)
    (c : CollectorState) : CollectorState :=
  { c with tests := c.tests.map (fun t => if t.id = testId then { t with outcome := outcome } else t) }

/-- `recordPromptInfo(prompt, temperature, completions)`: `Map.set` keyed by
the prompt object, with `id = this.prompts.size` read before the set. -/
def recordPromptInfo (pid : Nat) (temperature : Rat) (completions : List (List Char))
    (c : CollectorState) : CollectorState :=
  let id := c.promptInfos.length
  let pi : PromptInfo :=
    { promptId := pid, id := id, file := str "prompt_" ++ natStr id ++ str ".js",
      temperature := temperature, completions := completions }
  if c.promptInfos.any (fun q => decide (q.promptId = pid)) then
    { c with promptInfos := c.promptInfos.map (fun q => if q.promptId = pid then pi else q) }
  else
    { c with promptInfos := c.promptInfos ++ [pi] }

/- ------------------------------------------------------------------ -/
/- generateTests.ts: the TestGenerator                                 -/
/- ------------------------------------------------------------------ -/

/-- The external collaborators of the engine: the espree parser oracle, the
completion model (returning the completion set in iteration order) and the
test validator. -/
structure Env where
  parses : List Char → Bool
  completions : List Char → Rat → List (List Char)
  validate : List Char → List Char → TestOutcome

/-- A snippet map `fn(functionName) -> option<list<string>>`. -/
def SnippetMap : Type := List Char → Option (List (List Char))

/-- The engine state: an allocation counter and store for prompt objects
(modelling the JavaScript heap and object identity) plus the collector. -/
structure GenState where
  nextPromptId : Nat
  prompts : List (Nat × PromptData)
  collector : CollectorState
deriving DecidableEq, Repr

/-- The initial engine state: no prompts allocated, empty collector. -/
def initState : GenState :=
  { nextPromptId := 0, prompts := [], collector := { tests := [], promptInfos := [] } }

/-- Dereference a prompt object id in the store. -/
def lookupPrompt (pid : Nat) (s : GenState) : Option PromptData :=
  (s.prompts.find? (fun e => decide (e.1 = pid))).map (·.2)

/-- Allocate a fresh prompt object. -/
def allocPrompt (p : PromptData) (s : GenState) : Nat × GenState :=
  (s.nextPromptId,
   { s with nextPromptId := s.nextPromptId + 1, prompts := s.prompts ++ [(s.nextPromptId, p)] })

/-- `previousPrompt.withProvenance(...prompt.provenance)`: append provenance
records to the prompt object with id `pid`. -/
def mergeProvenance (pid : Nat) (recs : List Provenance) (s : GenState) : GenState :=
  { s with prompts := s.prompts.map (fun e =>
      if e.1 = pid then (e.1, { e.2 with provenance := e.2.provenance ++ recs }) else e) }

/-- `TestGenerator.validateCompletion(prompt, completion, temperature)`. -/
def validateCompletion (env : Env) (pid : Nat) (p : PromptData) (completion : List Char)
    (temperature : Rat) (c : CollectorState) : TestInfo × CollectorState :=
  let testSource := completeTest env.parses p completion true
  let (info, c1) := recordTestInfo (testSource.getD completion) pid p.fn.accessPath c
  if 1 < info.prompts.length then
    -- we have already validated this test
    (info, c1)
  else
    let outcome :=
      if completion = [] then .failed { message := str "Empty test", errCode := none, stack := none }
      else if testSource.getD [] ≠ [] then env.validate info.testName info.testSource
      else .failed { message := str "Invalid syntax", errCode := none, stack := none }
    ({ info with outcome := outcome }, recordTestResult info.id temperature outcome c1)

/-- The four refiners, in the order the `TestGenerator` constructor installs
them. -/
inductive RefinerTag where
  | snippetIncluder
  | retryWithError
  | docCommentIncluder
  | functionBodyIncluder
deriving DecidableEq, Repr

/-- The `name` getter of each refiner. -/
def refinerName : RefinerTag → List Char
  | .snippetIncluder => str "SnippetIncluder"
  | .retryWithError => str "RetryWithError"
  | .docCommentIncluder => str "DocCommentIncluder"
  | .functionBodyIncluder => str "FunctionBodyIncluder"

/-- The fresh prompt emitted by SnippetIncluder. -/
def snippetFlip (p : PromptData) : PromptData :=
  { fn := p.fn, usageSnippets := p.usageSnippets,
    options := { p.options with includeSnippets := true }, retry := none, provenance := [] }

/-- The fresh prompt emitted by DocCommentIncluder. -/
def docFlip (p : PromptData) : PromptData :=
  { fn := p.fn, usageSnippets := p.usageSnippets,
    options := { p.options with includeDocComment := true }, retry := none, provenance := [] }

/-- The fresh prompt emitted by FunctionBodyIncluder. -/
def bodyFlip (p : PromptData) : PromptData :=
  { fn := p.fn, usageSnippets := p.usageSnippets,
    options := { p.options with includeFunctionBody := true }, retry := none, provenance := [] }

/-- The fresh `RetryPrompt` emitted by RetryWithError (its `super` call copies
the original prompt's function, snippets and options). -/
def retryOf (p : PromptData) (completion errMessage : List Char) : PromptData :=
  { fn := p.fn, usageSnippets := p.usageSnippets, options := p.options,
    retry := some { body := completion, err := errMessage }, provenance := [] }

/-- `refine(original, completion, outcome)` for each refiner.  Every emitted
prompt is a freshly constructed object with empty provenance (the provenance
record is attached by `refinePrompts`). -/
def refine (tag : RefinerTag) (p : PromptData) (completion : List Char)
    (outcome : TestOutcome) : List PromptData :=
  match tag with
  | .snippetIncluder =>
    if !p.options.includeSnippets ∧ p.usageSnippets ≠ [] then [snippetFlip p] else []
  | .retryWithError =>
    if p.retry = none ∧ outcome.isFailed then [retryOf p completion outcome.errMessage] else []
  | .docCommentIncluder =>
    if !p.options.includeDocComment ∧ p.fn.descriptor.docComment ≠ none then [docFlip p] else []
  | .functionBodyIncluder =>
    if !p.options.includeFunctionBody ∧ p.fn.descriptor.implementation ≠ [] then [bodyFlip p]
    else []

/-- The ordered refiner list of the `TestGenerator`. -/
def refiners : List RefinerTag :=
  [.snippetIncluder, .retryWithError, .docCommentIncluder, .functionBodyIncluder]

/-- Allocate the outputs of one refiner, tag each with its provenance record
and push it onto the worklist. -/
def pushRefined (poppedPid : Nat) (testId : Nat) (tag : RefinerTag) :
    List PromptData → GenState × List Nat → GenState × List Nat
  | [], acc => acc
  | q :: qs, (s, wl) =>
    let (newPid, s') := allocPrompt
      { q with provenance := [{ originalPrompt := poppedPid, testId := testId,
                                refiner := refinerName tag }] } s
    pushRefined poppedPid testId tag qs (s', wl ++ [newPid])

/-- `TestGenerator.refinePrompts(prompt, completion, testInfo, worklist)`. -/
def refinePrompts (poppedPid : Nat) (p : PromptData) (completion : List Char)
    (info : TestInfo) : List RefinerTag → GenState × List Nat → GenState × List Nat
  | [], acc => acc
  | tag :: tags, acc =>
    refinePrompts poppedPid p completion info tags
      (pushRefined poppedPid info.id tag (refine tag p completion info.outcome) acc)

/-- The `for (const completion of completions)` loop body of
`generateAndValidateTests`: validate each completion, update the
passing-test flag, and refine. -/
def processCompletions (env : Env) (temperature : Rat) (pid : Nat) (p : PromptData) :
    List (List Char) → GenState × List Nat × Bool → GenState × List Nat × Bool
  | [], acc => acc
  | completion :: cs, (s, wl, passed) =>
    let (info, c') := validateCompletion env pid p completion temperature s.collector
    let passed' := if info.outcome.isPassed then true else passed
    let (s', wl') := refinePrompts pid p completion info refiners ({ s with collector := c' }, wl)
    processCompletions env temperature pid p cs (s', wl', passed')

/-- The `while (worklist.length > 0)` loop of `generateAndValidateTests`,
with explicit fuel (the TypeScript loop has no a-priori bound).  `gp` models
the `generatedPrompts` map from assembled text to the first prompt object
seen with that text, in insertion order. -/
def processWorklist (env : Env) (temperature : Rat) :
    Nat → List (List Char × Nat) → List Nat → Bool → GenState → GenState × Bool
  | 0, _, _, passed, s => (s, passed)
  | _ + 1, _, [], passed, s => (s, passed)
  | fuel + 1, gp, wl@(_ :: _), passed, s =>
    match wl.getLast? with
    | none => (s, passed)
    | some pid =>
      let wl' := wl.dropLast
      match lookupPrompt pid s with
      | none => (s, passed)
      | some p =>
        let key := assemble env.parses p
        match gp.find? (fun e => decide (e.1 = key)) with
        | some e =>
          processWorklist env temperature fuel gp wl' passed (mergeProvenance e.2 p.provenance s)
        | none =>
          let gp' := gp ++ [(key, pid)]
          let cs := env.completions key temperature
          let (s', wl'', passed') := processCompletions env temperature pid p cs (s, wl', passed)
          let s'' := { s' with collector := recordPromptInfo pid temperature cs s'.collector }
          processWorklist env temperature fuel gp' wl'' passed' s''

/-- One iteration of the `for (const temperature of this.temperatures)` loop:
allocate the initial prompt for the function and run the worklist.  Returns
the final state and the `generatedPassingTests` flag. -/
def processTemperature (env : Env) (sm : SnippetMap) (fn : APIFunction) (fuel : Nat)
    (temperature : Rat) (s : GenState) : GenState × Bool :=
  let snippets := (sm fn.functionName).getD []
  let (pid0, s1) := allocPrompt
    { fn := fn, usageSnippets := snippets, options := defaultPromptOptions,
      retry := none, provenance := [] } s
  processWorklist env temperature fuel [] [pid0] false s1

/-- `TestGenerator.generateAndValidateTests(fun)`: process the temperatures in
order, stopping after the first one that generated a passing test. -/
def generateAndValidateTests (env : Env) (sm : SnippetMap) (fn : APIFunction) (fuel : Nat) :
    List Rat → GenState → GenState
  | [], s => s
  | t :: ts, s =>
    let r := processTemperature env sm fn fuel t s
    if r.2 then r.1 else generateAndValidateTests env sm fn fuel ts r.1

/- ------------------------------------------------------------------ -/
/- benchmark/run.ts: runExperiment                                     -/
/- ------------------------------------------------------------------ -/

/-- `runExperiment`, with wall-clock time modelled in completion-query units:
the only suspension point of the engine is awaiting the completion model, so
the clock is `clock0` plus the number of queries issued so far — which equals
the number of prompt infos recorded, since each processed prompt performs
exactly one query and is recorded exactly once.  The second component of the
result logs the clock value observed at each deadline check that passed
(i.e. at the dequeue of each function actually processed); on expiry the
remaining function worklist is discarded. -/
def runExperiment (env : Env) (temps : List Rat) (sm : SnippetMap) (fuel : Nat)
    (clock0 deadline : Nat) : List APIFunction → GenState → GenState × List Nat
  | [], s => (s, [])
  | fn :: fns, s =>
    let now := clock0 + s.collector.promptInfos.length
    if deadline < now then (s, [])
    else
      let s' := generateAndValidateTests env sm fn fuel temps s
      let r := runExperiment env temps sm fuel clock0 deadline fns s'
      (r.1, now :: r.2)

/- ------------------------------------------------------------------ -/
/- Lemmas about the syntactic helpers                                  -/
/- ------------------------------------------------------------------ -/

theorem bracketTruncate_cons_open (d : Nat) (c : Char) (t : List Char)
    (h : (c = '\x7b' || c = '(') = true) :
    bracketTruncate d (c :: t) = c :: bracketTruncate (d + 1) t := by
  simp only [bracketTruncate, h, if_true]

theorem bracketTruncate_cons_close_zero (c : Char) (t : List Char)
    (h1 : (c = '\x7b' || c = '(') = false) (h2 : (c = '\x7d' || c = ')') = true) :
    bracketTruncate 0 (c :: t) = [] := by
  simp only [bracketTruncate, h1, h2, Bool.false_eq_true, if_false, if_true]

theorem bracketTruncate_cons_close_succ (d : Nat) (c : Char) (t : List Char)
    (h1 : (c = '\x7b' || c = '(') = false) (h2 : (c = '\x7d' || c = ')') = true) :
    bracketTruncate (d + 1) (c :: t) = c :: bracketTruncate d t := by
  simp only [bracketTruncate, h1, h2, Bool.false_eq_true, if_false, if_true]

theorem bracketTruncate_cons_other (d : Nat) (c : Char) (t : List Char)
    (h1 : (c = '\x7b' || c = '(') = false) (h2 : (c = '\x7d' || c = ')') = false) :
    bracketTruncate d (c :: t) = c :: bracketTruncate d t := by
  simp only [bracketTruncate, h1, h2, Bool.false_eq_true, if_false]

theorem bracketTruncate_idem (d : Nat) (l : List Char) :
    bracketTruncate d (bracketTruncate d l) = bracketTruncate d l := by
  induction l generalizing d with
  | nil => rfl
  | cons c t ih =>
    by_cases h1 : (c = '\x7b' || c = '(') = true
    · rw [bracketTruncate_cons_open d c t h1, bracketTruncate_cons_open d c _ h1, ih]
    · replace h1 : (c = '\x7b' || c = '(') = false := by simpa using h1
      by_cases h2 : (c = '\x7d' || c = ')') = true
      · cases d with
        | zero => rw [bracketTruncate_cons_close_zero c t h1 h2]; rfl
        | succ d' =>
          rw [bracketTruncate_cons_close_succ d' c t h1 h2,
            bracketTruncate_cons_close_succ d' c _ h1 h2, ih]
      · replace h2 : (c = '\x7d' || c = ')') = false := by simpa using h2
        rw [bracketTruncate_cons_other d c t h1 h2, bracketTruncate_cons_other d c _ h1 h2, ih]

theorem bracketTruncate_fix_prefix (d : Nat) (l1 l2 : List Char)
    (h : bracketTruncate d (l1 ++ l2) = l1 ++ l2) : bracketTruncate d l1 = l1 := by
  induction l1 generalizing d with
  | nil => rfl
  | cons c t ih =>
    rw [List.cons_append] at h
    by_cases h1 : (c = '\x7b' || c = '(') = true
    · rw [bracketTruncate_cons_open d c _ h1, List.cons.injEq] at h
      rw [bracketTruncate_cons_open d c t h1, ih (d + 1) h.2]
    · replace h1 : (c = '\x7b' || c = '(') = false := by simpa using h1
      by_cases h2 : (c = '\x7d' || c = ')') = true
      · cases d with
        | zero => exact absurd (h ▸ bracketTruncate_cons_close_zero c _ h1 h2) (by simp)
        | succ d' =>
          rw [bracketTruncate_cons_close_succ d' c _ h1 h2, List.cons.injEq] at h
          rw [bracketTruncate_cons_close_succ d' c t h1 h2, ih d' h.2]
      · replace h2 : (c = '\x7d' || c = ')') = false := by simpa using h2
        rw [bracketTruncate_cons_other d c _ h1 h2, List.cons.injEq] at h
        rw [bracketTruncate_cons_other d c t h1 h2, ih d h.2]

theorem isJsWs_not_open (c : Char) (h : isJsWs c = true) : (c = '\x7b' || c = '(') = false := by
  by_cases h1 : c = '\x7b'
  · subst h1; exact absurd h (by decide)
  · by_cases h2 : c = '('
    · subst h2; exact absurd h (by decide)
    · simp [h1, h2]

theorem isJsWs_not_close (c : Char) (h : isJsWs c = true) : (c = '\x7d' || c = ')') = false := by
  by_cases h1 : c = '\x7d'
  · subst h1; exact absurd h (by decide)
  · by_cases h2 : c = ')'
    · subst h2; exact absurd h (by decide)
    · simp [h1, h2]

theorem bracketTruncate_fix_dropWhile (d : Nat) (l : List Char)
    (h : bracketTruncate d l = l) :
    bracketTruncate d (l.dropWhile isJsWs) = l.dropWhile isJsWs := by
  induction l generalizing d with
  | nil => rfl
  | cons c t ih =>
    by_cases hw : isJsWs c = true
    · have h1 := isJsWs_not_open c hw
      have h2 := isJsWs_not_close c hw
      rw [bracketTruncate_cons_other d c t h1 h2, List.cons.injEq] at h
      rw [List.dropWhile_cons, if_pos hw]
      exact ih d h.2
    · rw [List.dropWhile_cons, if_neg hw]
      exact h

theorem dropWhile_ws_head (l : List Char) :
    l.dropWhile isJsWs = [] ∨ ∃ c t, l.dropWhile isJsWs = c :: t ∧ isJsWs c = false := by
  induction l with
  | nil => left; rfl
  | cons c t ih =>
    by_cases hw : isJsWs c = true
    · rw [List.dropWhile_cons, if_pos hw]; exact ih
    · right
      exact ⟨c, t, by rw [List.dropWhile_cons, if_neg hw], by simpa using hw⟩

theorem dropWhile_ws_idem (l : List Char) :
    (l.dropWhile isJsWs).dropWhile isJsWs = l.dropWhile isJsWs := by
  rcases dropWhile_ws_head l with h | ⟨c, t, h, hc⟩
  · rw [h]; rfl
  · rw [h, List.dropWhile_cons, hc]; simp

theorem trimRight_prefix (l : List Char) : ∃ suf, l = trimRight l ++ suf := by
  refine ⟨(l.reverse.takeWhile isJsWs).reverse, ?_⟩
  unfold trimRight
  rw [← List.reverse_append, List.takeWhile_append_dropWhile, List.reverse_reverse]

theorem trimRight_idem (l : List Char) : trimRight (trimRight l) = trimRight l := by
  unfold trimRight
  rw [List.reverse_reverse]
  rcases dropWhile_ws_head l.reverse with h | ⟨c, t, h, hc⟩
  · rw [h]; rfl
  · rw [h, List.dropWhile_cons, hc]; simp

theorem length_dropWhile_ws_le (l : List Char) : (l.dropWhile isJsWs).length ≤ l.length := by
  induction l with
  | nil => exact Nat.le_refl 0
  | cons c t ih =>
    rw [List.dropWhile_cons]
    by_cases hw : isJsWs c = true
    · rw [if_pos hw]; exact Nat.le_succ_of_le ih
    · rw [if_neg hw]

theorem dropWhile_ws_of_prefix (l pre suf : List Char) (hsplit : l = pre ++ suf)
    (h : l.dropWhile isJsWs = l) : pre.dropWhile isJsWs = pre := by
  cases pre with
  | nil => rfl
  | cons c t =>
    rw [hsplit, List.cons_append, List.dropWhile_cons] at h
    by_cases hw : isJsWs c = true
    · exfalso
      rw [if_pos hw] at h
      have hlen := congrArg List.length h
      have hle := length_dropWhile_ws_le (t ++ suf)
      simp only [List.length_cons] at hlen
      omega
    · rw [List.dropWhile_cons, if_neg hw]


theorem jsTrim_idem (l : List Char) : jsTrim (jsTrim l) = jsTrim l := by
  unfold jsTrim
  obtain ⟨suf, hsuf⟩ := trimRight_prefix (l.dropWhile isJsWs)
  have hdw : (trimRight (l.dropWhile isJsWs)).dropWhile isJsWs = trimRight (l.dropWhile isJsWs) :=
    dropWhile_ws_of_prefix (l.dropWhile isJsWs) _ suf hsuf (dropWhile_ws_idem l)
  rw [hdw, trimRight_idem]

theorem jsTrim_prefix (l : List Char) : ∃ pre suf, l = pre ++ (jsTrim l ++ suf) := by
  obtain ⟨suf, hsuf⟩ := trimRight_prefix (l.dropWhile isJsWs)
  refine ⟨l.takeWhile isJsWs, suf, ?_⟩
  have h0 : l.takeWhile isJsWs ++ l.dropWhile isJsWs = l := List.takeWhile_append_dropWhile ..
  conv_lhs => rw [← h0]
  unfold jsTrim
  rw [← hsuf]

theorem trimCompletion_nil : trimCompletion [] = [] := by decide

theorem trimCompletion_bt_fix (s : List Char) :
    bracketTruncate 0 (trimCompletion s) = trimCompletion s := by
  show bracketTruncate 0
      (jsTrim (bracketTruncate 0 (if endsWithCloserModWs s then s else dropAfterLastNewline s))) =
    jsTrim (bracketTruncate 0 (if endsWithCloserModWs s then s else dropAfterLastNewline s))
  set u := bracketTruncate 0 (if endsWithCloserModWs s then s else dropAfterLastNewline s) with hu
  have h1 : bracketTruncate 0 u = u := by rw [hu]; exact bracketTruncate_idem 0 _
  have h2 : bracketTruncate 0 (u.dropWhile isJsWs) = u.dropWhile isJsWs :=
    bracketTruncate_fix_dropWhile 0 u h1
  obtain ⟨suf, hsuf⟩ := trimRight_prefix (u.dropWhile isJsWs)
  show bracketTruncate 0 (trimRight (u.dropWhile isJsWs)) = trimRight (u.dropWhile isJsWs)
  exact bracketTruncate_fix_prefix 0 _ suf (by rw [← hsuf]; exact h2)

theorem jsTrim_trimCompletion (s : List Char) :
    jsTrim (trimCompletion s) = trimCompletion s := by
  show jsTrim
      (jsTrim (bracketTruncate 0 (if endsWithCloserModWs s then s else dropAfterLastNewline s))) = _
  exact jsTrim_idem _

/-- C8 (counterexample): `trimCompletion` is not idempotent.  On `"a}"` the
first application cuts the completion just before the unmatched `}` (the
line-drop step does not fire because the input ends with a closer), leaving
`"a"`; the second application then drops the now-incomplete single line
entirely, leaving the empty string. -/
theorem trimCompletion_not_idempotent :
    trimCompletion (trimCompletion (str "a\x7d")) ≠ trimCompletion (str "a\x7d") := by decide

/-- C8 (amended): `trimCompletion` is idempotent on every input whose result
is empty or ends (modulo trailing whitespace, which the final trim removes
anyway) with `;`, `}` or `)` — i.e. whenever the result would not trigger the
incomplete-trailing-line drop of a second application. -/
theorem trimCompletion_idem_of_trimmed_closer (s : List Char)
    (h : trimCompletion s = [] ∨ endsWithCloserModWs (trimCompletion s) = true) :
    trimCompletion (trimCompletion s) = trimCompletion s := by
  rcases h with h | h
  · rw [h]; exact trimCompletion_nil
  · have hbt := trimCompletion_bt_fix s
    have hjt := jsTrim_trimCompletion s
    show jsTrim (bracketTruncate 0
        (if endsWithCloserModWs (trimCompletion s) then trimCompletion s
         else dropAfterLastNewline (trimCompletion s))) = trimCompletion s
    rw [if_pos h, hbt, hjt]

/-- Witness for C8's amended theorem at the concrete input `"a;"`. -/
theorem trimCompletion_idem_witness :
    trimCompletion (trimCompletion (str "a;")) = trimCompletion (str "a;") :=
  trimCompletion_idem_of_trimmed_closer (str "a;") (Or.inr (by decide))

/-- C7: whenever `closeBrackets` succeeds, the returned source satisfies the
parse oracle, it equals the input exactly when the input is already balanced
(the scan, skipping line comments, ends with no outstanding expected
closers), and an unbalanced input that succeeds comes back with a non-empty
closer suffix appended. -/
theorem closeBrackets_sound (parses : List Char → Bool) (s r : List Char)
    (h : closeBrackets parses s = some r) :
    parses r = true ∧ (r = s ↔ isBalanced s) ∧
      (¬ isBalanced s → ∃ suffix, suffix ≠ [] ∧ r = s ++ suffix) := by
  unfold closeBrackets at h
  split at h
  · cases h
  · next brackets hcb =>
    split at h
    · next hp =>
      injection h with h
      subst h
      refine ⟨hp, ⟨?_, ?_⟩, ?_⟩
      · intro he
        have hlen := congrArg List.length he
        rw [List.length_append] at hlen
        have : brackets = [] := List.eq_nil_of_length_eq_zero (by omega)
        unfold isBalanced
        rw [hcb, this]
      · intro hb
        unfold isBalanced at hb
        rw [hcb] at hb
        injection hb with hb
        rw [hb, List.append_nil]
      · intro hnb
        refine ⟨brackets, ?_, rfl⟩
        intro hbe
        exact hnb (by unfold isBalanced; rw [hcb, hbe])
    · cases h

/-- Witness for C7 at the concrete input `"("` with an all-accepting parse
oracle. -/
theorem closeBrackets_sound_witness :
    (fun (_ : List Char) => true) (str "()") = true ∧
      (str "()" = str "(" ↔ isBalanced (str "(")) ∧
      (¬ isBalanced (str "(") → ∃ suffix, suffix ≠ [] ∧ str "()" = str "(" ++ suffix) :=
  closeBrackets_sound (fun _ => true) (str "(") (str "()") (by decide)

/-- C10: `RetryPrompt.assemble` is total, and when `closeBrackets` cannot
repair the reconstructed failing test, the assembled text is the raw
base-prompt-plus-failing-body text followed by `"    })\n"`, then the
error-message trailer comment lines and the original test-case header. -/
theorem retryPrompt_assemble_fallback (parses : List Char → Bool) (p : PromptData)
    (r : RetryInfo) (h : closeBrackets parses (plainAssemble p ++ r.body ++ ['\n']) = none) :
    assemble parses { p with retry := some r } =
      (plainAssemble p ++ r.body ++ ['\n']) ++ str "    \x7d)\n" ++
      str "    // the test above fails with the following error:\n" ++
      (str "    //   " ++ r.err ++ ['\n']) ++
      str "    // fixed test:\n" ++ testHeaderOf p.fn := by
  show retryAssemble parses { p with retry := some r } r = _
  have hplain : plainAssemble { p with retry := some r } = plainAssemble p := rfl
  simp only [retryAssemble, hplain, h]
  simp [List.append_assoc]

/-- Witness for C10: with a parse oracle that rejects everything,
`closeBrackets` always fails and the fallback shape is taken. -/
theorem retryPrompt_assemble_fallback_witness :
    assemble (fun _ => false)
        { fn := { accessPath := str "p",
                  descriptor := { signature := str "()", isAsync := false,
                                  implementation := [], isConstructor := false,
                                  docComment := none },
                  packageName := str "p" },
          usageSnippets := [], options := defaultPromptOptions,
          retry := some { body := str "x", err := str "e" }, provenance := [] } =
      (plainAssemble
          { fn := { accessPath := str "p",
                    descriptor := { signature := str "()", isAsync := false,
                                    implementation := [], isConstructor := false,
                                    docComment := none },
                    packageName := str "p" },
            usageSnippets := [], options := defaultPromptOptions,
            retry := some { body := str "x", err := str "e" }, provenance := [] } ++
        str "x" ++ ['\n']) ++ str "    \x7d)\n" ++
      str "    // the test above fails with the following error:\n" ++
      (str "    //   " ++ str "e" ++ ['\n']) ++
      str "    // fixed test:\n" ++
      testHeaderOf { accessPath := str "p",
                     descriptor := { signature := str "()", isAsync := false,
                                     implementation := [], isConstructor := false,
                                     docComment := none },
                     packageName := str "p" } := by
  have := retryPrompt_assemble_fallback (fun _ => false)
    { fn := { accessPath := str "p",
              descriptor := { signature := str "()", isAsync := false,
                              implementation := [], isConstructor := false,
                              docComment := none },
              packageName := str "p" },
      usageSnippets := [], options := defaultPromptOptions,
      retry := none, provenance := [] }
    { body := str "x", err := str "e" } (by decide)
  exact this

/- ------------------------------------------------------------------ -/
/- Collector invariants                                                -/
/- ------------------------------------------------------------------ -/

/-- Invariants of reachable collector states: test ids are positional (the
id sequence is `0, 1, 2, …` in insertion order, hence unique and equal to
the size of the map at creation time), test sources are pairwise distinct
(they are the keys of a `Map`), every test info holds at least one prompt,
and prompt-info ids are positional as well. -/
structure CollectorInv (c : CollectorState) : Prop where
  testIds : c.tests.map (fun t => t.id) = List.range c.tests.length
  srcsNodup : (c.tests.map (fun t => t.testSource)).Nodup
  promptsNe : ∀ t ∈ c.tests, t.prompts ≠ []
  piIds : c.promptInfos.map (fun q => q.id) = List.range c.promptInfos.length

theorem collectorInv_init : CollectorInv { tests := [], promptInfos := [] } :=
  ⟨rfl, List.nodup_nil, fun _ h => absurd h (List.not_mem_nil _), rfl⟩

theorem testIds_lt (c : CollectorState) (h : CollectorInv c) :
    ∀ t ∈ c.tests, t.id < c.tests.length := by
  intro t ht
  have : t.id ∈ c.tests.map (fun t => t.id) := List.mem_map_of_mem _ ht
  rw [h.testIds] at this
  exact List.mem_range.mp this

theorem recordTestInfo_found (source : List Char) (pid : Nat) (api : List Char)
    (c : CollectorState) (t : TestInfo)
    (hfind : c.tests.find? (fun t => decide (t.testSource = source)) = some t) :
    recordTestInfo source pid api c =
      ({ t with prompts := t.prompts ++ [pid] },
       { c with tests := c.tests.map (fun u =>
           if u.testSource = source then { t with prompts := t.prompts ++ [pid] } else u) }) := by
  unfold recordTestInfo
  rw [hfind]

theorem recordTestInfo_notfound (source : List Char) (pid : Nat) (api : List Char)
    (c : CollectorState)
    (hfind : c.tests.find? (fun t => decide (t.testSource = source)) = none) :
    recordTestInfo source pid api c =
      ({ id := c.tests.length, testName := str "test_" ++ natStr c.tests.length ++ str ".js",
         outcome := .other, testSource := source, prompts := [pid], api := api },
       { c with tests := c.tests ++
          [{ id := c.tests.length, testName := str "test_" ++ natStr c.tests.length ++ str ".js",
             outcome := .other, testSource := source, prompts := [pid], api := api }] }) := by
  unfold recordTestInfo
  rw [hfind]

theorem find?_eq_none_of_not_mem_sources (source : List Char) (c : CollectorState)
    (h : source ∉ c.tests.map (fun t => t.testSource)) :
    c.tests.find? (fun t => decide (t.testSource = source)) = none := by
  rw [List.find?_eq_none]
  intro t ht hp
  exact h (by
    rw [decide_eq_true_eq] at hp
    rw [← hp]
    exact List.mem_map_of_mem _ ht)

theorem find?_eq_some_of_mem_sources (source : List Char) (c : CollectorState)
    (h : source ∈ c.tests.map (fun t => t.testSource)) :
    ∃ t, c.tests.find? (fun t => decide (t.testSource = source)) = some t ∧
      t ∈ c.tests ∧ t.testSource = source := by
  obtain ⟨t0, ht0, hsrc⟩ := List.mem_map.mp h
  have hsome : (c.tests.find? (fun t => decide (t.testSource = source))).isSome := by
    rw [List.find?_isSome]
    exact ⟨t0, ht0, by rw [decide_eq_true_eq]; exact hsrc⟩
  obtain ⟨t, ht⟩ := Option.isSome_iff_exists.mp hsome
  refine ⟨t, ht, List.mem_of_find?_eq_some ht, ?_⟩
  have := List.find?_some ht
  rwa [decide_eq_true_eq] at this

theorem recordTestInfo_inv (source : List Char) (pid : Nat) (api : List Char)
    (c : CollectorState) (h : CollectorInv c) :
    CollectorInv (recordTestInfo source pid api c).2 := by
  cases hfind : c.tests.find? (fun t => decide (t.testSource = source)) with
  | some t =>
    rw [recordTestInfo_found source pid api c t hfind]
    have hidpt : ∀ u ∈ c.tests,
        (if u.testSource = source then { t with prompts := t.prompts ++ [pid] } else u).id = u.id := by
      intro u hu
      by_cases hs : u.testSource = source
      · rw [if_pos hs]
        have ht := List.find?_some hfind
        rw [decide_eq_true_eq] at ht
        have hut : u = t := List.inj_on_of_nodup_map h.srcsNodup hu
          (List.mem_of_find?_eq_some hfind) (by rw [hs, ht])
        rw [hut]
      · rw [if_neg hs]
    have hsrcpt : ∀ u ∈ c.tests,
        (if u.testSource = source then { t with prompts := t.prompts ++ [pid] } else u).testSource
          = u.testSource := by
      intro u hu
      by_cases hs : u.testSource = source
      · rw [if_pos hs]
        have ht := List.find?_some hfind
        rw [decide_eq_true_eq] at ht
        show t.testSource = u.testSource
        rw [ht, hs]
      · rw [if_neg hs]
    refine ⟨?_, ?_, ?_, h.piIds⟩
    · rw [List.map_map, List.length_map]
      have hcomp : c.tests.map ((fun w => w.id) ∘ (fun u =>
          if u.testSource = source then { t with prompts := t.prompts ++ [pid] } else u))
          = c.tests.map (fun w => w.id) := by
        apply List.map_congr_left
        intro u hu
        exact hidpt u hu
      rw [hcomp]
      exact h.testIds
    · rw [List.map_map]
      have hcomp : c.tests.map ((fun w => w.testSource) ∘ (fun u =>
          if u.testSource = source then { t with prompts := t.prompts ++ [pid] } else u))
          = c.tests.map (fun w => w.testSource) := by
        apply List.map_congr_left
        intro u hu
        exact hsrcpt u hu
      rw [hcomp]
      exact h.srcsNodup
    · intro u hu
      obtain ⟨v, hv, hvu⟩ := List.mem_map.mp hu
      by_cases hs : v.testSource = source
      · rw [if_pos hs] at hvu
        rw [← hvu]
        simp
      · rw [if_neg hs] at hvu
        rw [← hvu]
        exact h.promptsNe v hv
  | none =>
    rw [recordTestInfo_notfound source pid api c hfind]
    refine ⟨?_, ?_, ?_, h.piIds⟩
    · rw [List.map_append, h.testIds, List.length_append]
      simp [List.range_succ]
    · rw [List.map_append, List.nodup_append]
      refine ⟨h.srcsNodup, List.nodup_singleton _, ?_⟩
      intro x hx hx'
      simp only [List.map_cons, List.map_nil, List.mem_singleton] at hx'
      subst hx'
      obtain ⟨t, hft, _, _⟩ := find?_eq_some_of_mem_sources _ c hx
      rw [hfind] at hft
      cases hft
    · intro u hu
      rcases List.mem_append.mp hu with hu | hu
      · exact h.promptsNe u hu
      · rw [List.mem_singleton] at hu
        rw [hu]
        simp

theorem recordTestResult_inv (tid : Nat) (temp : Rat) (o : TestOutcome) (c : CollectorState)
    (h : CollectorInv c) : CollectorInv (recordTestResult tid temp o c) := by
  have hid : ∀ u ∈ c.tests, (if u.id = tid then { u with outcome := o } else u).id = u.id := by
    intro u _
    by_cases hs : u.id = tid
    · rw [if_pos hs]
    · rw [if_neg hs]
  have hsrc : ∀ u ∈ c.tests,
      (if u.id = tid then { u with outcome := o } else u).testSource = u.testSource := by
    intro u _
    by_cases hs : u.id = tid
    · rw [if_pos hs]
    · rw [if_neg hs]
  unfold recordTestResult
  refine ⟨?_, ?_, ?_, h.piIds⟩
  · rw [List.map_map, List.length_map]
    have hcomp : c.tests.map ((fun w => w.id) ∘ (fun u =>
        if u.id = tid then { u with outcome := o } else u)) = c.tests.map (fun w => w.id) :=
      List.map_congr_left hid
    rw [hcomp]
    exact h.testIds
  · rw [List.map_map]
    have hcomp : c.tests.map ((fun w => w.testSource) ∘ (fun u =>
        if u.id = tid then { u with outcome := o } else u)) = c.tests.map (fun w => w.testSource) :=
      List.map_congr_left hsrc
    rw [hcomp]
    exact h.srcsNodup
  · intro u hu
    obtain ⟨v, hv, hvu⟩ := List.mem_map.mp hu
    by_cases hs : v.id = tid
    · rw [if_pos hs] at hvu
      rw [← hvu]
      exact h.promptsNe v hv
    · rw [if_neg hs] at hvu
      rw [← hvu]
      exact h.promptsNe v hv

theorem recordTestResult_append (c : CollectorState) (fresh : TestInfo) (temp : Rat)
    (o : TestOutcome) (hid : ∀ t ∈ c.tests, t.id ≠ fresh.id) :
    recordTestResult fresh.id temp o { c with tests := c.tests ++ [fresh] } =
      { c with tests := c.tests ++ [{ fresh with outcome := o }] } := by
  unfold recordTestResult
  have : (c.tests ++ [fresh]).map (fun t => if t.id = fresh.id then { t with outcome := o } else t)
      = c.tests ++ [{ fresh with outcome := o }] := by
    rw [List.map_append]
    have h1 : c.tests.map (fun t => if t.id = fresh.id then { t with outcome := o } else t)
        = c.tests := by
      have hpt : ∀ u ∈ c.tests,
          (if u.id = fresh.id then { u with outcome := o } else u) = u := by
        intro u hu
        exact if_neg (hid u hu)
      rw [List.map_congr_left hpt]
      simp
    rw [h1]
    congr 1
    rw [List.map_singleton, if_pos rfl]
  rw [this]

theorem recordPromptInfo_fresh (pid : Nat) (temp : Rat) (cs : List (List Char))
    (c : CollectorState) (hf : ∀ q ∈ c.promptInfos, q.promptId ≠ pid) :
    recordPromptInfo pid temp cs c =
      { c with promptInfos := c.promptInfos ++
          [{ promptId := pid, id := c.promptInfos.length,
             file := str "prompt_" ++ natStr c.promptInfos.length ++ str ".js",
             temperature := temp, completions := cs }] } := by
  unfold recordPromptInfo
  have : c.promptInfos.any (fun q => decide (q.promptId = pid)) = false := by
    rw [List.any_eq_false]
    intro q hq
    rw [decide_eq_true_eq]
    exact hf q hq
  rw [this]
  simp

theorem recordPromptInfo_fresh_inv (pid : Nat) (temp : Rat) (cs : List (List Char))
    (c : CollectorState) (h : CollectorInv c) (hf : ∀ q ∈ c.promptInfos, q.promptId ≠ pid) :
    CollectorInv (recordPromptInfo pid temp cs c) := by
  rw [recordPromptInfo_fresh pid temp cs c hf]
  refine ⟨h.testIds, h.srcsNodup, h.promptsNe, ?_⟩
  rw [List.map_append, h.piIds, List.length_append]
  simp [List.range_succ]

theorem closeBrackets_shape (parses : List Char → Bool) (s r : List Char)
    (h : closeBrackets parses s = some r) : ∃ suf, r = s ++ suf := by
  unfold closeBrackets at h
  split at h
  · cases h
  · split at h
    · injection h with h
      exact ⟨_, h.symm⟩
    · cases h

theorem replaceClosingSuffix_ne_nil (repl src : List Char) (hr : repl ≠ []) (hs : src ≠ []) :
    replaceClosingSuffix repl src ≠ [] := by
  unfold replaceClosingSuffix
  split
  · simp [hr]
  · exact hs

theorem completeTest_ne_some_nil (parses : List Char → Bool) (p : PromptData)
    (body : List Char) (stub : Bool) (r : List Char)
    (h : completeTest parses p body stub = some r) : r ≠ [] := by
  unfold completeTest at h
  rw [Option.map_eq_some'] at h
  obtain ⟨y, hy, hr⟩ := h
  obtain ⟨suf, hsuf⟩ := closeBrackets_shape _ _ _ hy
  rw [← hr]
  apply replaceClosingSuffix_ne_nil _ _ (by decide)
  rw [hsuf]
  simp [importsOf, str]

theorem validateCompletion_mem (env : Env) (pid : Nat) (p : PromptData) (completion : List Char)
    (temp : Rat) (c : CollectorState) (hinv : CollectorInv c) (t : TestInfo)
    (hfind : c.tests.find? (fun u =>
        decide (u.testSource = (completeTest env.parses p completion true).getD completion)) = some t) :
    validateCompletion env pid p completion temp c =
      ({ t with prompts := t.prompts ++ [pid] },
       { c with tests := c.tests.map (fun u =>
           if u.testSource = (completeTest env.parses p completion true).getD completion
           then { t with prompts := t.prompts ++ [pid] } else u) }) := by
  have hne : t.prompts ≠ [] := hinv.promptsNe t (List.mem_of_find?_eq_some hfind)
  have hlen : 1 < (t.prompts ++ [pid]).length := by
    rw [List.length_append, List.length_singleton]
    have := List.length_pos.mpr hne
    omega
  simp only [validateCompletion]
  rw [recordTestInfo_found _ pid _ c t hfind]
  dsimp only
  rw [if_pos hlen]

theorem validateCompletion_notmem (env : Env) (pid : Nat) (p : PromptData) (completion : List Char)
    (temp : Rat) (c : CollectorState) (hinv : CollectorInv c)
    (hnm : (completeTest env.parses p completion true).getD completion ∉
      c.tests.map (fun t => t.testSource)) :
    validateCompletion env pid p completion temp c =
      (let key := (completeTest env.parses p completion true).getD completion
       let outcome :=
         if completion = [] then
           TestOutcome.failed { message := str "Empty test", errCode := none, stack := none }
         else if (completeTest env.parses p completion true).getD [] ≠ [] then
           env.validate (str "test_" ++ natStr c.tests.length ++ str ".js") key
         else
           TestOutcome.failed { message := str "Invalid syntax", errCode := none, stack := none }
       ({ id := c.tests.length, testName := str "test_" ++ natStr c.tests.length ++ str ".js",
          outcome := outcome, testSource := key, prompts := [pid], api := p.fn.accessPath },
        { c with tests := c.tests ++
          [{ id := c.tests.length, testName := str "test_" ++ natStr c.tests.length ++ str ".js",
             outcome := outcome, testSource := key, prompts := [pid], api := p.fn.accessPath }] })) := by
  have hfind := find?_eq_none_of_not_mem_sources _ c hnm
  simp only [validateCompletion]
  rw [recordTestInfo_notfound _ pid _ c hfind]
  dsimp only
  rw [if_neg (by simp)]
  have happ := recordTestResult_append c
    { id := c.tests.length, testName := str "test_" ++ natStr c.tests.length ++ str ".js",
      outcome := .other,
      testSource := (completeTest env.parses p completion true).getD completion,
      prompts := [pid], api := p.fn.accessPath } temp
    (if completion = [] then
       TestOutcome.failed { message := str "Empty test", errCode := none, stack := none }
     else if (completeTest env.parses p completion true).getD [] ≠ [] then
       env.validate (str "test_" ++ natStr c.tests.length ++ str ".js")
         ((completeTest env.parses p completion true).getD completion)
     else
       TestOutcome.failed { message := str "Invalid syntax", errCode := none, stack := none })
    (fun u hu => Nat.ne_of_lt (testIds_lt c hinv u hu))
  rw [happ]

theorem collectorInv_append_test (c : CollectorState) (h : CollectorInv c) (fresh : TestInfo)
    (hid : fresh.id = c.tests.length)
    (hsrc : fresh.testSource ∉ c.tests.map (fun t => t.testSource))
    (hp : fresh.prompts ≠ []) :
    CollectorInv { c with tests := c.tests ++ [fresh] } := by
  refine ⟨?_, ?_, ?_, h.piIds⟩
  · rw [List.map_append, h.testIds, List.length_append, List.map_singleton, hid]
    simp [List.range_succ]
  · rw [List.map_append, List.nodup_append]
    refine ⟨h.srcsNodup, List.nodup_singleton _, ?_⟩
    intro x hx hx'
    simp only [List.map_cons, List.map_nil, List.mem_singleton] at hx'
    subst hx'
    exact hsrc hx
  · intro u hu
    rcases List.mem_append.mp hu with hu | hu
    · exact h.promptsNe u hu
    · rw [List.mem_singleton] at hu
      rw [hu]
      exact hp

theorem validateCompletion_inv (env : Env) (pid : Nat) (p : PromptData) (completion : List Char)
    (temp : Rat) (c : CollectorState) (h : CollectorInv c) :
    CollectorInv (validateCompletion env pid p completion temp c).2 := by
  by_cases hmem : (completeTest env.parses p completion true).getD completion ∈
      c.tests.map (fun t => t.testSource)
  · obtain ⟨t, hfind, _, _⟩ := find?_eq_some_of_mem_sources _ c hmem
    rw [validateCompletion_mem env pid p completion temp c h t hfind]
    have := recordTestInfo_inv ((completeTest env.parses p completion true).getD completion)
      pid p.fn.accessPath c h
    rw [recordTestInfo_found _ pid _ c t hfind] at this
    exact this
  · rw [validateCompletion_notmem env pid p completion temp c h hmem]
    exact collectorInv_append_test c h _ rfl hmem (by simp)

/-- C2: postcondition of `validateCompletion`.  If the assembled test source
was previously recorded, the existing test-info is returned with only the
current prompt appended (id, name, source and outcome unchanged) and the
validator is not consulted (the result does not depend on `env.validate`).
Otherwise the recorded outcome is `Failed{"Empty test"}` for the empty
completion, `Failed{"Invalid syntax"}` when `completeTest` cannot repair the
completion, and the validator's verdict on the assembled source in every
other case; the fresh record is appended to the collector. -/
theorem validateCompletion_postcondition (env : Env) (pid : Nat) (p : PromptData)
    (completion : List Char) (temp : Rat) (c : CollectorState) (hinv : CollectorInv c) :
    ((completeTest env.parses p completion true).getD completion ∈
        c.tests.map (fun t => t.testSource) →
      (∃ t ∈ c.tests,
        t.testSource = (completeTest env.parses p completion true).getD completion ∧
        (validateCompletion env pid p completion temp c).1 =
          { t with prompts := t.prompts ++ [pid] }) ∧
      (∀ v', validateCompletion { env with validate := v' } pid p completion temp c =
        validateCompletion env pid p completion temp c)) ∧
    ((completeTest env.parses p completion true).getD completion ∉
        c.tests.map (fun t => t.testSource) →
      (validateCompletion env pid p completion temp c).1.outcome =
        (if completion = [] then
          TestOutcome.failed { message := str "Empty test", errCode := none, stack := none }
         else
          match completeTest env.parses p completion true with
          | some src =>
            env.validate (validateCompletion env pid p completion temp c).1.testName src
          | none =>
            TestOutcome.failed { message := str "Invalid syntax", errCode := none, stack := none }) ∧
      (validateCompletion env pid p completion temp c).2.tests =
        c.tests ++ [(validateCompletion env pid p completion temp c).1]) := by
  constructor
  · intro hmem
    obtain ⟨t, hfind, htmem, htsrc⟩ := find?_eq_some_of_mem_sources _ c hmem
    constructor
    · exact ⟨t, htmem, htsrc, by rw [validateCompletion_mem env pid p completion temp c hinv t hfind]⟩
    · intro v'
      rw [validateCompletion_mem env pid p completion temp c hinv t hfind,
        validateCompletion_mem { env with validate := v' } pid p completion temp c hinv t hfind]
  · intro hmem
    rw [validateCompletion_notmem env pid p completion temp c hinv hmem]
    dsimp only
    constructor
    · by_cases hc : completion = []
      · rw [if_pos hc, if_pos hc]
      · rw [if_neg hc, if_neg hc]
        cases hct : completeTest env.parses p completion true with
        | some src =>
          have hsrc := completeTest_ne_some_nil env.parses p completion true src hct
          simp [hsrc]
        | none => simp
    · rfl

/-- Witness for C2 at a concrete prompt, completion and empty collector. -/
theorem validateCompletion_postcondition_witness :
    let env : Env :=
      { parses := fun _ => true, completions := fun _ _ => [],
        validate := fun _ _ => TestOutcome.passed none none }
    let p : PromptData :=
      { fn := { accessPath := str "p",
                descriptor := { signature := str "()", isAsync := false, implementation := [],
                                isConstructor := false, docComment := none },
                packageName := str "p" },
        usageSnippets := [], options := defaultPromptOptions, retry := none, provenance := [] }
    let c : CollectorState := { tests := [], promptInfos := [] }
    ((completeTest env.parses p (str "x") true).getD (str "x") ∈
        c.tests.map (fun t => t.testSource) →
      (∃ t ∈ c.tests,
        t.testSource = (completeTest env.parses p (str "x") true).getD (str "x") ∧
        (validateCompletion env 0 p (str "x") 0 c).1 =
          { t with prompts := t.prompts ++ [0] }) ∧
      (∀ v', validateCompletion { env with validate := v' } 0 p (str "x") 0 c =
        validateCompletion env 0 p (str "x") 0 c)) ∧
    ((completeTest env.parses p (str "x") true).getD (str "x") ∉
        c.tests.map (fun t => t.testSource) →
      (validateCompletion env 0 p (str "x") 0 c).1.outcome =
        (if str "x" = [] then
          TestOutcome.failed { message := str "Empty test", errCode := none, stack := none }
         else
          match completeTest env.parses p (str "x") true with
          | some src =>
            env.validate (validateCompletion env 0 p (str "x") 0 c).1.testName src
          | none =>
            TestOutcome.failed { message := str "Invalid syntax", errCode := none, stack := none }) ∧
      (validateCompletion env 0 p (str "x") 0 c).2.tests =
        c.tests ++ [(validateCompletion env 0 p (str "x") 0 c).1]) :=
  validateCompletion_postcondition _ 0 _ (str "x") 0 _ collectorInv_init

/- ------------------------------------------------------------------ -/
/- Prompt-store primitives                                             -/
/- ------------------------------------------------------------------ -/

theorem plainAssemble_congr (p q : PromptData) (hfn : p.fn = q.fn)
    (hus : p.usageSnippets = q.usageSnippets) (hopt : p.options = q.options) :
    plainAssemble p = plainAssemble q := by
  unfold plainAssemble importsOf docCommentSection functionBodySection assembleUsageSnippets
    suiteHeaderOf testHeaderOf
  rw [hfn, hus, hopt]

theorem retryAssemble_congr (parses : List Char → Bool) (p q : PromptData) (r : RetryInfo)
    (hfn : p.fn = q.fn) (hus : p.usageSnippets = q.usageSnippets) (hopt : p.options = q.options) :
    retryAssemble parses p r = retryAssemble parses q r := by
  unfold retryAssemble
  rw [plainAssemble_congr p q hfn hus hopt, hfn]

theorem assemble_provenance_irrel (parses : List Char → Bool) (p : PromptData)
    (l : List Provenance) : assemble parses { p with provenance := l } = assemble parses p := by
  cases hr : p.retry with
  | none =>
    simp only [assemble, hr]
    exact plainAssemble_congr _ _ rfl rfl rfl
  | some r =>
    simp only [assemble, hr]
    exact retryAssemble_congr parses _ _ r rfl rfl rfl

theorem lookupPrompt_append (s : GenState) (news : List (Nat × PromptData)) (pid : Nat)
    (p : PromptData) (hl : lookupPrompt pid s = some p) :
    lookupPrompt pid { s with prompts := s.prompts ++ news } = some p := by
  unfold lookupPrompt at *
  rw [List.find?_append]
  rw [Option.map_eq_some'] at hl
  obtain ⟨e, he, hep⟩ := hl
  rw [he]
  simp [hep]

theorem lookupPrompt_alloc (q : PromptData) (s : GenState) (pid : Nat) (p : PromptData)
    (hl : lookupPrompt pid s = some p) :
    lookupPrompt pid (allocPrompt q s).2 = some p :=
  lookupPrompt_append s _ pid p hl

theorem lookupPrompt_alloc_self (q : PromptData) (s : GenState)
    (hb : ∀ e ∈ s.prompts, e.1 < s.nextPromptId) :
    lookupPrompt s.nextPromptId (allocPrompt q s).2 = some q := by
  unfold lookupPrompt allocPrompt
  rw [List.find?_append]
  have h1 : s.prompts.find? (fun e => decide (e.1 = s.nextPromptId)) = none := by
    rw [List.find?_eq_none]
    intro e he
    rw [decide_eq_true_eq]
    exact Nat.ne_of_lt (hb e he)
  rw [h1]
  simp

theorem find?_map_keyed (l : List (Nat × PromptData)) (x : Nat)
    (f : Nat × PromptData → Nat × PromptData) (hf : ∀ e, (f e).1 = e.1) :
    (l.map f).find? (fun e => decide (e.1 = x)) =
      (l.find? (fun e => decide (e.1 = x))).map f := by
  induction l with
  | nil => rfl
  | cons e t ih =>
    by_cases hx : e.1 = x
    · rw [List.map_cons, List.find?_cons_of_pos _ (by simp [hf e, hx]),
        List.find?_cons_of_pos _ (by simpa using hx), Option.map_some']
    · rw [List.map_cons, List.find?_cons_of_neg _ (by simp [hf e, hx]),
        List.find?_cons_of_neg _ (by simpa using hx), ih]

theorem lookupPrompt_merge (tgt : Nat) (recs : List Provenance) (s : GenState) (x : Nat) :
    lookupPrompt x (mergeProvenance tgt recs s) =
      (lookupPrompt x s).map
        (fun p => if x = tgt then { p with provenance := p.provenance ++ recs } else p) := by
  unfold lookupPrompt mergeProvenance
  have hkey : ∀ e : Nat × PromptData,
      (if e.1 = tgt then (e.1, { e.2 with provenance := e.2.provenance ++ recs }) else e).1 = e.1 := by
    intro e
    by_cases ht : e.1 = tgt
    · rw [if_pos ht]
    · rw [if_neg ht]
  rw [find?_map_keyed _ x _ hkey]
  cases hf : s.prompts.find? (fun e => decide (e.1 = x)) with
  | none => rfl
  | some e =>
    have hex : e.1 = x := by
      have := List.find?_some hf
      rwa [decide_eq_true_eq] at this
    simp only [Option.map_some']
    by_cases ht : e.1 = tgt
    · rw [if_pos ht]
      rw [if_pos (hex ▸ ht)]
    · rw [if_neg ht]
      rw [if_neg (hex ▸ ht)]

theorem lookupPrompt_merge_assemble (parses : List Char → Bool) (tgt : Nat)
    (recs : List Provenance) (s : GenState) (x : Nat) :
    (lookupPrompt x (mergeProvenance tgt recs s)).map (assemble parses) =
      (lookupPrompt x s).map (assemble parses) := by
  rw [lookupPrompt_merge]
  cases lookupPrompt x s with
  | none => rfl
  | some p =>
    rw [Option.map_some', Option.map_some', Option.map_some']
    by_cases ht : x = tgt
    · rw [if_pos ht]
      exact congrArg some (assemble_provenance_irrel parses p _)
    · rw [if_neg ht]

theorem lookupPrompt_merge_retry (tgt : Nat) (recs : List Provenance) (s : GenState) (x : Nat) :
    (lookupPrompt x (mergeProvenance tgt recs s)).map (fun p => p.retry) =
      (lookupPrompt x s).map (fun p => p.retry) := by
  rw [lookupPrompt_merge]
  cases lookupPrompt x s with
  | none => rfl
  | some p =>
    rw [Option.map_some', Option.map_some', Option.map_some']
    by_cases ht : x = tgt
    · rw [if_pos ht]
    · rw [if_neg ht]

theorem lookupPrompt_merge_fnsnips (tgt : Nat) (recs : List Provenance) (s : GenState) (x : Nat) :
    (lookupPrompt x (mergeProvenance tgt recs s)).map (fun p => (p.fn, p.usageSnippets)) =
      (lookupPrompt x s).map (fun p => (p.fn, p.usageSnippets)) := by
  rw [lookupPrompt_merge]
  cases lookupPrompt x s with
  | none => rfl
  | some p =>
    rw [Option.map_some', Option.map_some', Option.map_some']
    by_cases ht : x = tgt
    · rw [if_pos ht]
    · rw [if_neg ht]

theorem mergeProvenance_collector (tgt : Nat) (recs : List Provenance) (s : GenState) :
    (mergeProvenance tgt recs s).collector = s.collector := rfl

theorem mergeProvenance_nextId (tgt : Nat) (recs : List Provenance) (s : GenState) :
    (mergeProvenance tgt recs s).nextPromptId = s.nextPromptId := rfl

theorem mergeProvenance_keys (tgt : Nat) (recs : List Provenance) (s : GenState) :
    (mergeProvenance tgt recs s).prompts.map (fun e => e.1) = s.prompts.map (fun e => e.1) := by
  unfold mergeProvenance
  rw [List.map_map]
  apply List.map_congr_left
  intro e _
  by_cases ht : e.1 = tgt
  · show ((if e.1 = tgt then (e.1, _) else e)).1 = e.1
    rw [if_pos ht]
  · show ((if e.1 = tgt then (e.1, _) else e)).1 = e.1
    rw [if_neg ht]

/- ------------------------------------------------------------------ -/
/- Assembled-text shape lemmas                                         -/
/- ------------------------------------------------------------------ -/

theorem plainAssemble_eq (p : PromptData) :
    plainAssemble p = importsOf p.fn ++ (assembleUsageSnippets p ++ (docCommentSection p ++
      (commentOut p.fn.signature ++ (functionBodySection p ++
        (suiteHeaderOf p.fn ++ testHeaderOf p.fn))))) := by
  unfold plainAssemble
  simp [List.append_assoc]

theorem assembleUsageSnippets_off (p : PromptData) (h : p.options.includeSnippets = false) :
    assembleUsageSnippets p = [] := by
  unfold assembleUsageSnippets
  rw [if_neg (by simp [h])]

theorem assembleUsageSnippets_on_ne_nil (p : PromptData)
    (hflag : p.options.includeSnippets = true) (hus : p.usageSnippets ≠ []) :
    assembleUsageSnippets p ≠ [] := by
  unfold assembleUsageSnippets
  rw [if_pos (by simp [hflag])]
  rw [Ne, List.flatten_eq_nil_iff]
  intro hall
  have hlen : p.usageSnippets.enum.length = p.usageSnippets.length := List.enum_length
  have hpos : 0 < p.usageSnippets.length := List.length_pos.mpr hus
  have henum : p.usageSnippets.enum ≠ [] := by
    intro he
    rw [he] at hlen
    simp at hlen
    omega
  obtain ⟨e, he⟩ := List.exists_mem_of_ne_nil _ henum
  have := hall _ (List.mem_map_of_mem _ he)
  have hne : str "// usage #" ++ natStr (e.1 + 1) ++ ['\n'] ++
      ((splitOnChar '\n' e.2).map (fun l => str "// " ++ l ++ ['\n'])).flatten ≠ [] := by
    simp [str]
  exact hne this

theorem splitOnChar_ne_nil (sep : Char) (l : List Char) : splitOnChar sep l ≠ [] := by
  cases l with
  | nil => simp [splitOnChar]
  | cons c cs =>
    simp only [splitOnChar]
    cases splitOnChar sep cs with
    | nil => simp
    | cons x xs =>
      by_cases hc : c = sep
      · simp [hc]
      · simp [hc]

theorem splitOnChar_singleton_nil (sep : Char) (l : List Char)
    (h : splitOnChar sep l = [[]]) : l = [] := by
  cases l with
  | nil => rfl
  | cons c cs =>
    exfalso
    simp only [splitOnChar] at h
    cases hs : splitOnChar sep cs with
    | nil => exact splitOnChar_ne_nil sep cs hs
    | cons x xs =>
      rw [hs] at h
      by_cases hc : c = sep
      · simp [hc] at h
      · simp [hc] at h

theorem commentOut_ne_nil (im : List Char) (him : im ≠ []) : commentOut im ≠ [] := by
  unfold commentOut
  rw [Ne, List.flatten_eq_nil_iff]
  intro hall
  have hlines2 : (match (splitOnChar '\n' im).getLast? with
      | some [] => (splitOnChar '\n' im).dropLast
      | _ => splitOnChar '\n' im) ≠ [] := by
    cases hgl : (splitOnChar '\n' im).getLast? with
    | none => exact absurd (List.getLast?_eq_none_iff.mp hgl) (splitOnChar_ne_nil '\n' im)
    | some x =>
      cases hx : x with
      | nil =>
        subst hx
        intro hdrop
        have hdrop' : (splitOnChar '\n' im).dropLast = [] := hdrop
        have hlen : (splitOnChar '\n' im).length - 1 = 0 := by
          rw [← List.length_dropLast, hdrop']
          rfl
        have hpos : 0 < (splitOnChar '\n' im).length :=
          List.length_pos.mpr (splitOnChar_ne_nil '\n' im)
        have hone : (splitOnChar '\n' im).length = 1 := by omega
        obtain ⟨a, ha⟩ := List.length_eq_one.mp hone
        rw [ha] at hgl
        simp at hgl
        exact him (splitOnChar_singleton_nil '\n' im (by rw [ha, hgl]))
      | cons y ys =>
        subst hx
        exact splitOnChar_ne_nil '\n' im
  obtain ⟨ln, hln⟩ := List.exists_mem_of_ne_nil _ hlines2
  have := hall _ (List.mem_map_of_mem _ hln)
  simp [str] at this

/-- The function's doc comment, when present, does not comment out to the
empty string.  When this fails, DocCommentIncluder emits a prompt whose
assembled text equals that of the prompt it refines. -/
def docOkB (fn : APIFunction) : Bool :=
  match fn.descriptor.docComment with
  | none => true
  | some d => !(trimAndCombineDocComment d = [])

theorem append_insert_len_ne (a m b a' b' : List Char) (hm : m ≠ [])
    (ha : a.length = a'.length) (hb : b.length = b'.length) : a ++ (m ++ b) ≠ a' ++ b' := by
  intro h
  have hlen := congrArg List.length h
  simp only [List.length_append] at hlen
  have : m.length = 0 := by omega
  exact hm (List.eq_nil_of_length_eq_zero this)

theorem suiteHeader_split (fn : APIFunction) :
    suiteHeaderOf fn = (str "describe('test " ++ sanitizePackageName fn.packageName ++
      str "', function() ") ++ ['\x7b', '\n'] := by
  unfold suiteHeaderOf
  have hsp : (str "', function() \x7b\n" : List Char) = str "', function() " ++ ['\x7b', '\n'] := by
    decide
  rw [hsp]
  simp [List.append_assoc]

theorem fixedTest_split :
    (str "    // fixed test:\n" : List Char) = str "    // fixed test" ++ [':', '\n'] := by decide

theorem ends_pair_inj (a b t : List Char) (c d : Char)
    (h : a ++ ([c, '\n'] ++ t) = b ++ ([d, '\n'] ++ t)) : c = d := by
  have h2 : (a ++ [c, '\n']) ++ t = (b ++ [d, '\n']) ++ t := by
    rw [List.append_assoc, List.append_assoc]
    exact h
  have h3 := List.append_cancel_right h2
  have h4 : (a ++ [c]) ++ ['\n'] = (b ++ [d]) ++ ['\n'] := by
    rw [List.append_assoc, List.append_assoc]
    exact h3
  have h5 := List.append_cancel_right h4
  have h6 := congrArg List.getLast? h5
  rw [List.getLast?_concat, List.getLast?_concat] at h6
  injection h6

theorem plainAssemble_shape (p : PromptData) :
    ∃ a, plainAssemble p = a ++ (['\x7b', '\n'] ++ testHeaderOf p.fn) := by
  refine ⟨importsOf p.fn ++ (assembleUsageSnippets p ++ (docCommentSection p ++
    (commentOut p.fn.signature ++ (functionBodySection p ++
      (str "describe('test " ++ sanitizePackageName p.fn.packageName ++
        str "', function() "))))), ?_⟩
  rw [plainAssemble_eq, suiteHeader_split]
  simp [List.append_assoc]

theorem retryAssemble_shape (parses : List Char → Bool) (p : PromptData) (r : RetryInfo) :
    ∃ b, retryAssemble parses p r = b ++ ([':', '\n'] ++ testHeaderOf p.fn) := by
  refine ⟨(match closeBrackets parses (plainAssemble p ++ r.body ++ ['\n']) with
    | some src => replaceClosingSuffix (str "    \x7d)\n") src
    | none => plainAssemble p ++ r.body ++ ['\n'] ++ str "    \x7d)\n") ++
    (str "    // the test above fails with the following error:\n" ++
      (str "    //   " ++ (r.err ++ (['\n'] ++ str "    // fixed test")))), ?_⟩
  unfold retryAssemble
  rw [fixedTest_split]
  simp [List.append_assoc]

theorem assemble_plain_ne_retry (parses : List Char → Bool) (pq pp : PromptData)
    (hfn : pq.fn = pp.fn) (r : RetryInfo) (hq : pq.retry = some r) (hp : pp.retry = none) :
    assemble parses pq ≠ assemble parses pp := by
  intro h
  simp only [assemble, hq, hp] at h
  obtain ⟨b, hb⟩ := retryAssemble_shape parses pq r
  obtain ⟨a, ha⟩ := plainAssemble_shape pp
  rw [hb, ha, hfn] at h
  have := ends_pair_inj b a (testHeaderOf pp.fn) ':' '\x7b' h
  exact absurd this (by decide)

theorem snippet_flip_plain_ne (parses : List Char → Bool) (p : PromptData)
    (hflag : p.options.includeSnippets = false) (hus : p.usageSnippets ≠ [])
    (hretry : p.retry = none) :
    assemble parses (snippetFlip p) ≠ assemble parses p := by
  intro h
  have hqr : (snippetFlip p).retry = none := rfl
  simp only [assemble, hretry, hqr] at h
  rw [plainAssemble_eq, plainAssemble_eq] at h
  have hI : importsOf (snippetFlip p).fn = importsOf p.fn := rfl
  have hD : docCommentSection (snippetFlip p) = docCommentSection p := rfl
  have hG : commentOut (snippetFlip p).fn.signature = commentOut p.fn.signature := rfl
  have hB : functionBodySection (snippetFlip p) = functionBodySection p := rfl
  have hSH : suiteHeaderOf (snippetFlip p).fn = suiteHeaderOf p.fn := rfl
  have hTH : testHeaderOf (snippetFlip p).fn = testHeaderOf p.fn := rfl
  rw [hI, hD, hG, hB, hSH, hTH, assembleUsageSnippets_off p hflag] at h
  have hSq : assembleUsageSnippets (snippetFlip p) ≠ [] :=
    assembleUsageSnippets_on_ne_nil _ rfl hus
  have hlen := congrArg List.length h
  simp only [List.length_append, List.length_nil] at hlen
  exact hSq (List.eq_nil_of_length_eq_zero (by omega))

theorem doc_flip_plain_ne (parses : List Char → Bool) (p : PromptData)
    (hflag : p.options.includeDocComment = false) (hdc : p.fn.descriptor.docComment ≠ none)
    (hdoc : docOkB p.fn = true) (hretry : p.retry = none) :
    assemble parses (docFlip p) ≠ assemble parses p := by
  intro h
  have hqr : (docFlip p).retry = none := rfl
  simp only [assemble, hretry, hqr] at h
  rw [plainAssemble_eq, plainAssemble_eq] at h
  have hI : importsOf (docFlip p).fn = importsOf p.fn := rfl
  have hS : assembleUsageSnippets (docFlip p) = assembleUsageSnippets p := rfl
  have hG : commentOut (docFlip p).fn.signature = commentOut p.fn.signature := rfl
  have hB : functionBodySection (docFlip p) = functionBodySection p := rfl
  have hSH : suiteHeaderOf (docFlip p).fn = suiteHeaderOf p.fn := rfl
  have hTH : testHeaderOf (docFlip p).fn = testHeaderOf p.fn := rfl
  have hDp : docCommentSection p = [] := by
    unfold docCommentSection
    rw [if_neg (by simp [hflag])]
  obtain ⟨d, hd⟩ := Option.ne_none_iff_exists'.mp hdc
  have hDq : docCommentSection (docFlip p) =
      trimAndCombineDocComment (p.fn.descriptor.docComment.getD []) := by
    unfold docCommentSection
    rw [if_pos (show (docFlip p).options.includeDocComment = true from rfl)]
    rfl
  have hdne : trimAndCombineDocComment (p.fn.descriptor.docComment.getD []) ≠ [] := by
    rw [hd]
    simp only [Option.getD_some]
    unfold docOkB at hdoc
    simp only [hd] at hdoc
    simpa using hdoc
  rw [hI, hS, hG, hB, hSH, hTH, hDp, hDq] at h
  have hlen := congrArg List.length h
  simp only [List.length_append, List.length_nil] at hlen
  exact hdne (List.eq_nil_of_length_eq_zero (by omega))

theorem body_flip_plain_ne (parses : List Char → Bool) (p : PromptData)
    (hflag : p.options.includeFunctionBody = false)
    (himpl : p.fn.descriptor.implementation ≠ []) (hretry : p.retry = none) :
    assemble parses (bodyFlip p) ≠ assemble parses p := by
  intro h
  have hqr : (bodyFlip p).retry = none := rfl
  simp only [assemble, hretry, hqr] at h
  rw [plainAssemble_eq, plainAssemble_eq] at h
  have hI : importsOf (bodyFlip p).fn = importsOf p.fn := rfl
  have hS : assembleUsageSnippets (bodyFlip p) = assembleUsageSnippets p := rfl
  have hD : docCommentSection (bodyFlip p) = docCommentSection p := rfl
  have hG : commentOut (bodyFlip p).fn.signature = commentOut p.fn.signature := rfl
  have hSH : suiteHeaderOf (bodyFlip p).fn = suiteHeaderOf p.fn := rfl
  have hTH : testHeaderOf (bodyFlip p).fn = testHeaderOf p.fn := rfl
  have hBp : functionBodySection p = [] := by
    unfold functionBodySection
    rw [if_neg (by simp [hflag])]
  have hBq : functionBodySection (bodyFlip p) =
      commentOut p.fn.descriptor.implementation := by
    unfold functionBodySection
    rw [if_pos (show (bodyFlip p).options.includeFunctionBody = true from rfl)]
    rfl
  have hbne : commentOut p.fn.descriptor.implementation ≠ [] := commentOut_ne_nil _ himpl
  rw [hI, hS, hD, hG, hSH, hTH, hBp, hBq] at h
  have hlen := congrArg List.length h
  simp only [List.length_append, List.length_nil] at hlen
  exact hbne (List.eq_nil_of_length_eq_zero (by omega))

theorem refine_mem_cases (tag : RefinerTag) (p : PromptData) (completion : List Char)
    (outcome : TestOutcome) (q : PromptData) (hq : q ∈ refine tag p completion outcome) :
    (q = snippetFlip p ∧ p.options.includeSnippets = false ∧ p.usageSnippets ≠ []) ∨
    (q = retryOf p completion outcome.errMessage ∧ p.retry = none ∧ outcome.isFailed = true) ∨
    (q = docFlip p ∧ p.options.includeDocComment = false ∧
      p.fn.descriptor.docComment ≠ none) ∨
    (q = bodyFlip p ∧ p.options.includeFunctionBody = false ∧
      p.fn.descriptor.implementation ≠ []) := by
  cases tag with
  | snippetIncluder =>
    simp only [refine] at hq
    by_cases hcond : (!p.options.includeSnippets) = true ∧ p.usageSnippets ≠ []
    · rw [if_pos hcond, List.mem_singleton] at hq
      exact Or.inl ⟨hq, by simpa using hcond.1, hcond.2⟩
    · rw [if_neg hcond] at hq
      cases hq
  | retryWithError =>
    simp only [refine] at hq
    by_cases hcond : p.retry = none ∧ outcome.isFailed = true
    · rw [if_pos hcond, List.mem_singleton] at hq
      exact Or.inr (Or.inl ⟨hq, hcond.1, hcond.2⟩)
    · rw [if_neg hcond] at hq
      cases hq
  | docCommentIncluder =>
    simp only [refine] at hq
    by_cases hcond : (!p.options.includeDocComment) = true ∧ p.fn.descriptor.docComment ≠ none
    · rw [if_pos hcond, List.mem_singleton] at hq
      exact Or.inr (Or.inr (Or.inl ⟨hq, by simpa using hcond.1, hcond.2⟩))
    · rw [if_neg hcond] at hq
      cases hq
  | functionBodyIncluder =>
    simp only [refine] at hq
    by_cases hcond : (!p.options.includeFunctionBody) = true ∧ p.fn.descriptor.implementation ≠ []
    · rw [if_pos hcond, List.mem_singleton] at hq
      exact Or.inr (Or.inr (Or.inr ⟨hq, by simpa using hcond.1, hcond.2⟩))
    · rw [if_neg hcond] at hq
      cases hq

theorem refine_fn_snips (tag : RefinerTag) (p : PromptData) (completion : List Char)
    (outcome : TestOutcome) (q : PromptData) (hq : q ∈ refine tag p completion outcome) :
    q.fn = p.fn ∧ q.usageSnippets = p.usageSnippets := by
  rcases refine_mem_cases tag p completion outcome q hq with
    ⟨hqe, _, _⟩ | ⟨hqe, _, _⟩ | ⟨hqe, _, _⟩ | ⟨hqe, _, _⟩ <;> subst hqe <;> exact ⟨rfl, rfl⟩

theorem refine_retry_guard (tag : RefinerTag) (p : PromptData) (completion : List Char)
    (outcome : TestOutcome) (q : PromptData) (hq : q ∈ refine tag p completion outcome)
    (hqr : q.retry ≠ none) : p.retry = none := by
  rcases refine_mem_cases tag p completion outcome q hq with
    ⟨hqe, _, _⟩ | ⟨hqe, hpr, _⟩ | ⟨hqe, _, _⟩ | ⟨hqe, _, _⟩
  · subst hqe; exact absurd rfl hqr
  · exact hpr
  · subst hqe; exact absurd rfl hqr
  · subst hqe; exact absurd rfl hqr

theorem refine_output_text_ne (parses : List Char → Bool) (tag : RefinerTag) (p q : PromptData)
    (completion : List Char) (outcome : TestOutcome) (hdoc : docOkB p.fn = true)
    (hq : q ∈ refine tag p completion outcome) :
    assemble parses q ≠ assemble parses p := by
  rcases refine_mem_cases tag p completion outcome q hq with
    ⟨hqe, hflag, hus⟩ | ⟨hqe, hpr, _⟩ | ⟨hqe, hflag, hdc⟩ | ⟨hqe, hflag, himpl⟩
  · subst hqe
    cases hpr : p.retry with
    | none => exact snippet_flip_plain_ne parses p hflag hus hpr
    | some r =>
      exact (assemble_plain_ne_retry parses p (snippetFlip p) rfl r hpr rfl).symm
  · subst hqe
    exact assemble_plain_ne_retry parses (retryOf p completion outcome.errMessage) p rfl
      { body := completion, err := outcome.errMessage } rfl hpr
  · subst hqe
    cases hpr : p.retry with
    | none => exact doc_flip_plain_ne parses p hflag hdc hdoc hpr
    | some r =>
      exact (assemble_plain_ne_retry parses p (docFlip p) rfl r hpr rfl).symm
  · subst hqe
    cases hpr : p.retry with
    | none => exact body_flip_plain_ne parses p hflag himpl hpr
    | some r =>
      exact (assemble_plain_ne_retry parses p (bodyFlip p) rfl r hpr rfl).symm

/- ------------------------------------------------------------------ -/
/- Engine-state invariants                                             -/
/- ------------------------------------------------------------------ -/

/-- Claim C9's invariant: every provenance record carried by a retry prompt
references a non-retry prompt. -/
def RetryProvInv (s : GenState) : Prop :=
  ∀ e ∈ s.prompts, e.2.retry ≠ none → ∀ r ∈ e.2.provenance,
    ∃ q, lookupPrompt r.originalPrompt s = some q ∧ q.retry = none

/-- Claim C4's self-distinctness: no provenance record stored in a prompt
references that prompt itself. -/
def NoSelfProv (s : GenState) : Prop :=
  ∀ e ∈ s.prompts, ∀ r ∈ e.2.provenance, r.originalPrompt ≠ e.1

/-- Claim C4's record-level well-formedness: every provenance record stored
in a prompt references an `originalPrompt` that is distinct from the prompt
carrying the record and dereferences to a stored prompt, carries a `testId`
the collector has already assigned, and a refiner name drawn from the live
refiner set. -/
def ProvWF (s : GenState) : Prop :=
  ∀ e ∈ s.prompts, ∀ r ∈ e.2.provenance,
    r.originalPrompt ≠ e.1 ∧
    r.testId < s.collector.tests.length ∧
    r.refiner ∈ refiners.map refinerName ∧
    ∃ o, lookupPrompt r.originalPrompt s = some o

theorem refinerName_mem (tag : RefinerTag) : refinerName tag ∈ refiners.map refinerName := by
  cases tag <;> simp [refiners, refinerName]

/-- Well-formedness of reachable engine states. -/
structure StateInv (s : GenState) : Prop where
  storeBound : ∀ e ∈ s.prompts, e.1 < s.nextPromptId
  keysNodup : (s.prompts.map (fun e => e.1)).Nodup
  collector : CollectorInv s.collector
  recBound : ∀ q ∈ s.collector.promptInfos, q.promptId < s.nextPromptId
  piPids : (s.collector.promptInfos.map (fun q => q.promptId)).Nodup
  retryProv : RetryProvInv s

theorem stateInv_init : StateInv initState := by
  refine ⟨?_, List.nodup_nil, collectorInv_init, ?_, List.nodup_nil, ?_⟩
  · intro e he
    cases he
  · intro q hq
    cases hq
  · intro e he
    cases he

theorem pushRefined_spec (poppedPid testId : Nat) (tag : RefinerTag) (qs : List PromptData)
    (s : GenState) (wl : List Nat) :
    ∃ news : List (Nat × PromptData),
      (pushRefined poppedPid testId tag qs (s, wl)).1 =
        { nextPromptId := s.nextPromptId + news.length,
          prompts := s.prompts ++ news, collector := s.collector } ∧
      (pushRefined poppedPid testId tag qs (s, wl)).2 = wl ++ news.map (fun e => e.1) ∧
      (∀ e ∈ news, s.nextPromptId ≤ e.1 ∧ e.1 < s.nextPromptId + news.length) ∧
      (news.map (fun e => e.1)).Nodup ∧
      (∀ e ∈ news, ∃ q ∈ qs,
        e.2 = { q with provenance := [{ originalPrompt := poppedPid, testId := testId,
                                        refiner := refinerName tag }] }) := by
  induction qs generalizing s wl with
  | nil =>
    refine ⟨[], ?_, by simp [pushRefined], ?_, List.nodup_nil, ?_⟩
    · simp [pushRefined]
    · intro e he
      cases he
    · intro e he
      cases he
  | cons q qs ih =>
    obtain ⟨news', h1, h2, h3, h4, h5⟩ := ih
      ⟨s.nextPromptId + 1, s.prompts ++ [(s.nextPromptId, { q with provenance := [⟨poppedPid, testId, refinerName tag⟩] })], s.collector⟩
      (wl ++ [s.nextPromptId])
    have hstep : pushRefined poppedPid testId tag (q :: qs) (s, wl) =
        pushRefined poppedPid testId tag qs
          (⟨s.nextPromptId + 1, s.prompts ++ [(s.nextPromptId, { q with provenance := [⟨poppedPid, testId, refinerName tag⟩] })], s.collector⟩,
           wl ++ [s.nextPromptId]) := rfl
    refine ⟨(s.nextPromptId, { q with provenance := [⟨poppedPid, testId, refinerName tag⟩] }) :: news', ?_, ?_, ?_, ?_, ?_⟩
    · rw [hstep, h1]
      simp [List.append_assoc]
      omega
    · rw [hstep, h2]
      simp [List.append_assoc]
    · intro e he
      rcases List.mem_cons.mp he with he | he
      · subst he
        constructor
        · exact Nat.le_refl _
        · simp
      · obtain ⟨hle, hlt⟩ := h3 e he
        simp at hle hlt ⊢
        omega
    · rw [List.map_cons, List.nodup_cons]
      refine ⟨?_, h4⟩
      intro hmem
      rw [List.mem_map] at hmem
      obtain ⟨e, he, hfst⟩ := hmem
      have := (h3 e he).1
      simp at this
      omega
    · intro e he
      rcases List.mem_cons.mp he with he | he
      · subst he
        exact ⟨q, List.mem_cons_self _ _, rfl⟩
      · obtain ⟨q', hq', he'⟩ := h5 e he
        exact ⟨q', List.mem_cons_of_mem _ hq', he'⟩

theorem refinePrompts_spec (poppedPid : Nat) (p : PromptData) (completion : List Char)
    (info : TestInfo) (tags : List RefinerTag) (s : GenState) (wl : List Nat) :
    ∃ news : List (Nat × PromptData),
      (refinePrompts poppedPid p completion info tags (s, wl)).1 =
        ⟨s.nextPromptId + news.length, s.prompts ++ news, s.collector⟩ ∧
      (refinePrompts poppedPid p completion info tags (s, wl)).2 =
        wl ++ news.map (fun e => e.1) ∧
      (∀ e ∈ news, s.nextPromptId ≤ e.1 ∧ e.1 < s.nextPromptId + news.length) ∧
      (news.map (fun e => e.1)).Nodup ∧
      (∀ e ∈ news, ∃ tag, ∃ q ∈ refine tag p completion info.outcome,
        e.2 = { q with provenance := [⟨poppedPid, info.id, refinerName tag⟩] }) := by
  induction tags generalizing s wl with
  | nil =>
    refine ⟨[], by simp [refinePrompts], by simp [refinePrompts], ?_, List.nodup_nil, ?_⟩
    · intro e he
      cases he
    · intro e he
      cases he
  | cons tag tags ih =>
    obtain ⟨news1, h1, h2, h3, h4, h5⟩ :=
      pushRefined_spec poppedPid info.id tag (refine tag p completion info.outcome) s wl
    have hpair : pushRefined poppedPid info.id tag (refine tag p completion info.outcome) (s, wl) =
        (⟨s.nextPromptId + news1.length, s.prompts ++ news1, s.collector⟩,
         wl ++ news1.map (fun e => e.1)) := Prod.ext h1 h2
    obtain ⟨news2, g1, g2, g3, g4, g5⟩ := ih
      ⟨s.nextPromptId + news1.length, s.prompts ++ news1, s.collector⟩
      (wl ++ news1.map (fun e => e.1))
    have hstep : refinePrompts poppedPid p completion info (tag :: tags) (s, wl) =
        refinePrompts poppedPid p completion info tags
          (pushRefined poppedPid info.id tag (refine tag p completion info.outcome) (s, wl)) := rfl
    refine ⟨news1 ++ news2, ?_, ?_, ?_, ?_, ?_⟩
    · rw [hstep, hpair, g1]
      simp [List.append_assoc]
      omega
    · rw [hstep, hpair, g2]
      simp [List.append_assoc]
    · intro e he
      rcases List.mem_append.mp he with he | he
      · obtain ⟨hle, hlt⟩ := h3 e he
        simp only [List.length_append]
        omega
      · obtain ⟨hle, hlt⟩ := g3 e he
        simp only [List.length_append]
        simp at hle hlt
        omega
    · rw [List.map_append]
      refine List.Nodup.append h4 g4 ?_
      intro a ha1 ha2
      rw [List.mem_map] at ha1 ha2
      obtain ⟨e1, he1, hf1⟩ := ha1
      obtain ⟨e2, he2, hf2⟩ := ha2
      have b1 := (h3 e1 he1).2
      have b2 := (g3 e2 he2).1
      simp at b2
      omega
    · intro e he
      rcases List.mem_append.mp he with he | he
      · obtain ⟨q, hq, heq⟩ := h5 e he
        exact ⟨tag, q, hq, heq⟩
      · exact g5 e he

theorem validateCompletion_promptInfos (env : Env) (pid : Nat) (p : PromptData)
    (completion : List Char) (temp : Rat) (c : CollectorState) (h : CollectorInv c) :
    (validateCompletion env pid p completion temp c).2.promptInfos = c.promptInfos := by
  by_cases hmem : (completeTest env.parses p completion true).getD completion ∈
      c.tests.map (fun t => t.testSource)
  · obtain ⟨t, hfind, _, _⟩ := find?_eq_some_of_mem_sources _ c hmem
    rw [validateCompletion_mem env pid p completion temp c h t hfind]
  · rw [validateCompletion_notmem env pid p completion temp c h hmem]

theorem validateCompletion_tests_len (env : Env) (pid : Nat) (p : PromptData)
    (completion : List Char) (temp : Rat) (c : CollectorState) (h : CollectorInv c) :
    c.tests.length ≤ (validateCompletion env pid p completion temp c).2.tests.length := by
  by_cases hmem : (completeTest env.parses p completion true).getD completion ∈
      c.tests.map (fun t => t.testSource)
  · obtain ⟨t, hfind, _, _⟩ := find?_eq_some_of_mem_sources _ c hmem
    rw [validateCompletion_mem env pid p completion temp c h t hfind]
    simp
  · rw [validateCompletion_notmem env pid p completion temp c h hmem]
    simp

theorem validateCompletion_id_lt (env : Env) (pid : Nat) (p : PromptData)
    (completion : List Char) (temp : Rat) (c : CollectorState) (h : CollectorInv c) :
    (validateCompletion env pid p completion temp c).1.id <
      (validateCompletion env pid p completion temp c).2.tests.length := by
  by_cases hmem : (completeTest env.parses p completion true).getD completion ∈
      c.tests.map (fun t => t.testSource)
  · obtain ⟨t, hfind, htmem, _⟩ := find?_eq_some_of_mem_sources _ c hmem
    rw [validateCompletion_mem env pid p completion temp c h t hfind]
    dsimp only
    rw [List.length_map]
    exact testIds_lt c h t htmem
  · rw [validateCompletion_notmem env pid p completion temp c h hmem]
    dsimp only
    rw [List.length_append, List.length_singleton]
    omega

theorem validateCompletion_tests_passed (env : Env) (pid : Nat) (p : PromptData)
    (completion : List Char) (temp : Rat) (c : CollectorState) (hinv : CollectorInv c)
    (n0 : Nat) (hold : ∀ t ∈ c.tests, n0 ≤ t.id → t.outcome.isPassed = false)
    (hflag : (validateCompletion env pid p completion temp c).1.outcome.isPassed = false) :
    ∀ t ∈ (validateCompletion env pid p completion temp c).2.tests, n0 ≤ t.id →
      t.outcome.isPassed = false := by
  by_cases hmem : (completeTest env.parses p completion true).getD completion ∈
      c.tests.map (fun t => t.testSource)
  · obtain ⟨t0, hfind, ht0mem, _⟩ := find?_eq_some_of_mem_sources _ c hmem
    rw [validateCompletion_mem env pid p completion temp c hinv t0 hfind] at hflag ⊢
    intro t ht hid
    dsimp only at ht
    rw [List.mem_map] at ht
    obtain ⟨u, hu, heq⟩ := ht
    by_cases hsrc : u.testSource = (completeTest env.parses p completion true).getD completion
    · rw [if_pos hsrc] at heq
      subst heq
      exact hold t0 ht0mem hid
    · rw [if_neg hsrc] at heq
      subst heq
      exact hold u hu hid
  · rw [validateCompletion_notmem env pid p completion temp c hinv hmem] at hflag ⊢
    dsimp only at hflag ⊢
    intro t ht hid
    rcases List.mem_append.mp ht with ht | ht
    · exact hold t ht hid
    · rw [List.mem_singleton] at ht
      subst ht
      exact hflag

theorem processCompletions_spec (env : Env) (temp : Rat) (pid : Nat) (p : PromptData)
    (cs : List (List Char)) (s : GenState) (wl : List Nat) (passed : Bool)
    (hcol : CollectorInv s.collector) :
    ∃ news : List (Nat × PromptData),
      (processCompletions env temp pid p cs (s, wl, passed)).1.nextPromptId =
        s.nextPromptId + news.length ∧
      (processCompletions env temp pid p cs (s, wl, passed)).1.prompts =
        s.prompts ++ news ∧
      (processCompletions env temp pid p cs (s, wl, passed)).2.1 =
        wl ++ news.map (fun e => e.1) ∧
      (∀ e ∈ news, s.nextPromptId ≤ e.1 ∧ e.1 < s.nextPromptId + news.length) ∧
      (news.map (fun e => e.1)).Nodup ∧
      (∀ e ∈ news, ∃ tag completion out tid, completion ∈ cs ∧
        tid < (processCompletions env temp pid p cs (s, wl, passed)).1.collector.tests.length ∧
        ∃ q ∈ refine tag p completion out,
          e.2 = { q with provenance := [⟨pid, tid, refinerName tag⟩] }) ∧
      CollectorInv (processCompletions env temp pid p cs (s, wl, passed)).1.collector ∧
      (processCompletions env temp pid p cs (s, wl, passed)).1.collector.promptInfos =
        s.collector.promptInfos ∧
      s.collector.tests.length ≤
        (processCompletions env temp pid p cs (s, wl, passed)).1.collector.tests.length ∧
      ((processCompletions env temp pid p cs (s, wl, passed)).2.2 = false →
        passed = false ∧
        ∀ n0, (∀ t ∈ s.collector.tests, n0 ≤ t.id → t.outcome.isPassed = false) →
          ∀ t ∈ (processCompletions env temp pid p cs (s, wl, passed)).1.collector.tests,
            n0 ≤ t.id → t.outcome.isPassed = false) := by
  induction cs generalizing s wl passed with
  | nil =>
    refine ⟨[], by simp [processCompletions], by simp [processCompletions],
      by simp [processCompletions], ?_, List.nodup_nil, ?_, ?_, ?_, ?_, ?_⟩
    · intro e he
      cases he
    · intro e he
      cases he
    · simpa [processCompletions] using hcol
    · simp [processCompletions]
    · simp [processCompletions]
    · intro hflag
      simp only [processCompletions] at hflag ⊢
      exact ⟨hflag, fun n0 hold => hold⟩
  | cons completion cs ih =>
    rcases hvc : validateCompletion env pid p completion temp s.collector with ⟨info, c'⟩
    rcases hrp : refinePrompts pid p completion info refiners ({ s with collector := c' }, wl)
      with ⟨s1, wl1⟩
    have hred : processCompletions env temp pid p (completion :: cs) (s, wl, passed) =
        processCompletions env temp pid p cs
          (s1, wl1, if info.outcome.isPassed then true else passed) := by
      simp only [processCompletions, hvc, hrp]
    obtain ⟨news1, r1, r2, r3, r4, r5⟩ :=
      refinePrompts_spec pid p completion info refiners { s with collector := c' } wl
    have hs1 : s1 = (refinePrompts pid p completion info refiners
        ({ s with collector := c' }, wl)).1 := by rw [hrp]
    have hwl1 : wl1 = (refinePrompts pid p completion info refiners
        ({ s with collector := c' }, wl)).2 := by rw [hrp]
    have hc' : CollectorInv c' := by
      have := validateCompletion_inv env pid p completion temp s.collector hcol
      rw [hvc] at this
      exact this
    have hs1next : s1.nextPromptId = s.nextPromptId + news1.length := by rw [hs1, r1]
    have hs1prompts : s1.prompts = s.prompts ++ news1 := by rw [hs1, r1]
    have hs1col : s1.collector = c' := by rw [hs1, r1]
    have hcol1 : CollectorInv s1.collector := by rw [hs1col]; exact hc'
    obtain ⟨news2, g1, g2, g3, g4, g5, g6, g7, g8, g9, g10⟩ :=
      ih s1 wl1 (if info.outcome.isPassed then true else passed) hcol1
    have hpi : c'.promptInfos = s.collector.promptInfos := by
      have := validateCompletion_promptInfos env pid p completion temp s.collector hcol
      rw [hvc] at this
      exact this
    have hlen : s.collector.tests.length ≤ c'.tests.length := by
      have := validateCompletion_tests_len env pid p completion temp s.collector hcol
      rw [hvc] at this
      exact this
    refine ⟨news1 ++ news2, ?_, ?_, ?_, ?_, ?_, ?_, ?_, ?_, ?_, ?_⟩
    · rw [hred, g1, hs1next]
      simp
      omega
    · rw [hred, g2, hs1prompts, List.append_assoc]
    · rw [hred, g3, hwl1, r2]
      simp [List.append_assoc]
    · intro e he
      rcases List.mem_append.mp he with he | he
      · obtain ⟨hle, hlt⟩ := r3 e he
        simp only [List.length_append]
        simp at hle hlt
        omega
      · obtain ⟨hle, hlt⟩ := g4 e he
        rw [hs1next] at hle hlt
        simp only [List.length_append]
        omega
    · rw [List.map_append]
      refine List.Nodup.append r4 g5 ?_
      intro a ha1 ha2
      rw [List.mem_map] at ha1 ha2
      obtain ⟨e1, he1, hf1⟩ := ha1
      obtain ⟨e2, he2, hf2⟩ := ha2
      have b1 := (r3 e1 he1).2
      have b2 := (g4 e2 he2).1
      rw [hs1next] at b2
      simp at b1
      omega
    · intro e he
      rw [hred]
      have hidlt : info.id < s1.collector.tests.length := by
        have := validateCompletion_id_lt env pid p completion temp s.collector hcol
        rw [hvc] at this
        rw [hs1col]
        exact this
      rcases List.mem_append.mp he with he | he
      · obtain ⟨tag, q, hq, heq⟩ := r5 e he
        exact ⟨tag, completion, info.outcome, info.id, List.mem_cons_self _ _,
          Nat.lt_of_lt_of_le hidlt g9, q, hq, heq⟩
      · obtain ⟨tag, c0, out, tid, hc0, htid, q, hq, heq⟩ := g6 e he
        exact ⟨tag, c0, out, tid, List.mem_cons_of_mem _ hc0, htid, q, hq, heq⟩
    · rw [hred]
      exact g7
    · rw [hred, g8, hs1col, hpi]
    · rw [hred]
      calc s.collector.tests.length ≤ c'.tests.length := hlen
        _ = s1.collector.tests.length := by rw [hs1col]
        _ ≤ _ := g9
    · rw [hred]
      intro hflag
      obtain ⟨hpassed1, hrest⟩ := g10 hflag
      have hinfo : info.outcome.isPassed = false := by
        by_cases hip : info.outcome.isPassed = true
        · rw [hip, if_pos rfl] at hpassed1
          cases hpassed1
        · exact Bool.eq_false_iff.mpr hip
      have hpassed : passed = false := by
        rw [hinfo] at hpassed1
        simpa using hpassed1
      refine ⟨hpassed, ?_⟩
      intro n0 hold
      have hold' : ∀ t ∈ s1.collector.tests, n0 ≤ t.id → t.outcome.isPassed = false := by
        rw [hs1col]
        have hvf : (validateCompletion env pid p completion temp s.collector).1.outcome.isPassed
            = false := by
          rw [hvc]
          exact hinfo
        have := validateCompletion_tests_passed env pid p completion temp s.collector hcol
          n0 hold hvf
        rw [hvc] at this
        exact this
      exact hrest n0 hold'

theorem find?_keyed_of_mem (l : List (Nat × PromptData)) (e : Nat × PromptData)
    (hnd : (l.map (fun x => x.1)).Nodup) (he : e ∈ l) :
    l.find? (fun x => decide (x.1 = e.1)) = some e := by
  induction l with
  | nil => cases he
  | cons h t ih =>
    rw [List.map_cons, List.nodup_cons] at hnd
    rcases List.mem_cons.mp he with he | he
    · subst he
      rw [List.find?_cons_of_pos]
      rw [decide_eq_true_eq]
    · have hne : h.1 ≠ e.1 := by
        intro hk
        exact hnd.1 (hk ▸ List.mem_map_of_mem (fun x => x.1) he)
      rw [List.find?_cons_of_neg]
      · exact ih hnd.2 he
      · rw [decide_eq_true_eq]
        exact hne

theorem lookupPrompt_of_mem (s : GenState) (e : Nat × PromptData)
    (hnd : (s.prompts.map (fun x => x.1)).Nodup) (he : e ∈ s.prompts) :
    lookupPrompt e.1 s = some e.2 := by
  unfold lookupPrompt
  rw [find?_keyed_of_mem s.prompts e hnd he]
  rfl

theorem lookupPrompt_mem (s : GenState) (pid : Nat) (p : PromptData)
    (h : lookupPrompt pid s = some p) : (pid, p) ∈ s.prompts := by
  unfold lookupPrompt at h
  rw [Option.map_eq_some'] at h
  obtain ⟨e, he, hep⟩ := h
  have hmem := List.mem_of_find?_eq_some he
  have hkey := List.find?_some he
  rw [decide_eq_true_eq] at hkey
  have : e = (pid, p) := by
    cases e
    simp at hkey hep
    simp [hkey, hep]
  exact this ▸ hmem

theorem lookupPrompt_lt (s : GenState) (pid : Nat) (p : PromptData)
    (hb : ∀ e ∈ s.prompts, e.1 < s.nextPromptId)
    (h : lookupPrompt pid s = some p) : pid < s.nextPromptId :=
  hb (pid, p) (lookupPrompt_mem s pid p h)

/-- The invariant of the `while (worklist.length > 0)` loop for one function.
`fn` is the function being processed, `n0` the number of tests and `m0` the
number of prompt infos recorded before the current temperature started, `gp`
the `generatedPrompts` map, `wl` the worklist and `passed` the
`generatedPassingTests` flag.  The provenance-freshness facts are guarded by
`docOkB fn`, the condition under which every refinement changes the
assembled text. -/
structure LoopInv (env : Env) (fn : APIFunction) (D : Prop) (n0 m0 : Nat)
    (gp : List (List Char × Nat)) (wl : List Nat) (passed : Bool) (s : GenState) : Prop where
  state : StateInv s
  wlMem : ∀ pid ∈ wl, ∃ p, lookupPrompt pid s = some p ∧ p.fn = fn
  wlNodup : wl.Nodup
  wlNotRec : ∀ pid ∈ wl, ∀ q ∈ s.collector.promptInfos, q.promptId ≠ pid
  gpMem : ∀ e ∈ gp, ∃ p, lookupPrompt e.2 s = some p ∧ p.fn = fn ∧
    assemble env.parses p = e.1
  gpKeys : (gp.map (fun e => e.1)).Nodup
  gpWlDisj : ∀ pid ∈ wl, pid ∉ gp.map (fun e => e.2)
  newRec : ∀ q ∈ s.collector.promptInfos, m0 ≤ q.id → ∃ e ∈ gp, e.2 = q.promptId ∧
    (lookupPrompt q.promptId s).map (assemble env.parses) = some e.1
  passedInv : passed = false → ∀ t ∈ s.collector.tests, n0 ≤ t.id →
    t.outcome.isPassed = false
  provWF : D → ProvWF s
  wlProv : D → ∀ pid ∈ wl, ∀ p, lookupPrompt pid s = some p →
    ∀ r ∈ p.provenance, ∃ q, lookupPrompt r.originalPrompt s = some q ∧
      assemble env.parses q ≠ assemble env.parses p
  dimp : D → docOkB fn = true

theorem merge_preserves_origin (tgt : Nat) (recs : List Provenance) (s : GenState) (x : Nat)
    (q : PromptData) (h : lookupPrompt x s = some q) (hr : q.retry = none) :
    ∃ q', lookupPrompt x (mergeProvenance tgt recs s) = some q' ∧ q'.retry = none := by
  rw [lookupPrompt_merge, h, Option.map_some']
  by_cases ht : x = tgt
  · rw [if_pos ht]
    exact ⟨_, rfl, hr⟩
  · rw [if_neg ht]
    exact ⟨q, rfl, hr⟩

theorem merge_lookup_some (tgt : Nat) (recs : List Provenance) (s : GenState) (x : Nat)
    (p : PromptData) (h : lookupPrompt x s = some p) :
    lookupPrompt x (mergeProvenance tgt recs s) =
      some (if x = tgt then { p with provenance := p.provenance ++ recs } else p) := by
  rw [lookupPrompt_merge, h, Option.map_some']

theorem merge_lookup_fn (tgt : Nat) (recs : List Provenance) (s : GenState) (x : Nat)
    (p : PromptData) (h : lookupPrompt x s = some p) :
    ∃ p', lookupPrompt x (mergeProvenance tgt recs s) = some p' ∧ p'.fn = p.fn ∧
      assemble env_parses p' = assemble env_parses p := by
  rw [merge_lookup_some tgt recs s x p h]
  by_cases ht : x = tgt
  · rw [if_pos ht]
    exact ⟨_, rfl, rfl, assemble_provenance_irrel env_parses p _⟩
  · rw [if_neg ht]
    exact ⟨p, rfl, rfl, rfl⟩

theorem loopInv_merge_step (env : Env) (fn : APIFunction) (D : Prop) (n0 m0 : Nat)
    (gp : List (List Char × Nat)) (wl0 : List Nat) (pid : Nat) (passed : Bool) (s : GenState)
    (p : PromptData) (e : List Char × Nat)
    (hinv : LoopInv env fn D n0 m0 gp (wl0 ++ [pid]) passed s)
    (hp : lookupPrompt pid s = some p)
    (hfind : gp.find? (fun x => decide (x.1 = assemble env.parses p)) = some e) :
    LoopInv env fn D n0 m0 gp wl0 passed (mergeProvenance e.2 p.provenance s) := by
  have hemem : e ∈ gp := List.mem_of_find?_eq_some hfind
  have hekey : e.1 = assemble env.parses p := by
    have := List.find?_some hfind
    rwa [decide_eq_true_eq] at this
  obtain ⟨pe, hpe, hpefn, hpeasm⟩ := hinv.gpMem e hemem
  have hpfn : p.fn = fn := by
    obtain ⟨p', hp', hfn⟩ := hinv.wlMem pid (by simp)
    rw [hp] at hp'
    cases hp'
    exact hfn
  have hsub : ∀ x ∈ wl0, x ∈ wl0 ++ [pid] := fun x hx => List.mem_append_left _ hx
  refine ⟨?_, ?_, ?_, ?_, ?_, hinv.gpKeys, ?_, ?_, ?_, ?_, ?_, hinv.dimp⟩
  · -- StateInv
    refine ⟨?_, ?_, ?_, ?_, ?_, ?_⟩
    · intro x hx
      simp only [mergeProvenance, List.mem_map] at hx
      obtain ⟨y, hy, hxy⟩ := hx
      have hb := hinv.state.storeBound y hy
      rw [mergeProvenance_nextId]
      by_cases ht : y.1 = e.2
      · rw [if_pos ht] at hxy
        rw [← hxy]
        exact hb
      · rw [if_neg ht] at hxy
        rw [← hxy]
        exact hb
    · rw [mergeProvenance_keys e.2 p.provenance s]
      exact hinv.state.keysNodup
    · rw [mergeProvenance_collector]
      exact hinv.state.collector
    · rw [mergeProvenance_collector, mergeProvenance_nextId]
      exact hinv.state.recBound
    · rw [mergeProvenance_collector]
      exact hinv.state.piPids
    · -- RetryProvInv is preserved by the provenance merge
      intro entry hentry hretry r hr
      simp only [mergeProvenance, List.mem_map] at hentry
      obtain ⟨y, hy, hxy⟩ := hentry
      by_cases ht : y.1 = e.2
      · rw [if_pos ht] at hxy
        subst hxy
        dsimp only at hretry hr
        rcases List.mem_append.mp hr with hr | hr
        · obtain ⟨q, hq, hqr⟩ := hinv.state.retryProv y hy hretry r hr
          exact merge_preserves_origin e.2 p.provenance s r.originalPrompt q hq hqr
        · -- a record of the popped prompt is merged into a retry-prompt target:
          -- the key equality forces the popped prompt to be a retry prompt too
          have hype : y.2 = pe := by
            have hl := lookupPrompt_of_mem s y hinv.state.keysNodup hy
            rw [ht, hpe] at hl
            exact Option.some.inj hl.symm
          have hpretry : p.retry ≠ none := by
            intro hpr
            rcases hre : pe.retry with _ | rr
            · rw [hype, hre] at hretry
              exact hretry rfl
            · exact assemble_plain_ne_retry env.parses pe p (by rw [hpefn, hpfn]) rr hre hpr
                (by rw [hpeasm, hekey])
          obtain ⟨q, hq, hqr⟩ := hinv.state.retryProv (pid, p)
            (lookupPrompt_mem s pid p hp) hpretry r hr
          exact merge_preserves_origin e.2 p.provenance s r.originalPrompt q hq hqr
      · rw [if_neg ht] at hxy
        subst hxy
        obtain ⟨q, hq, hqr⟩ := hinv.state.retryProv y hy hretry r hr
        exact merge_preserves_origin e.2 p.provenance s r.originalPrompt q hq hqr
  · intro x hx
    obtain ⟨px, hpx, hfnx⟩ := hinv.wlMem x (hsub x hx)
    obtain ⟨p', hp', hfn', _⟩ := @merge_lookup_fn env.parses e.2 p.provenance s x px hpx
    exact ⟨p', hp', by rw [hfn', hfnx]⟩
  · exact (List.nodup_append.mp hinv.wlNodup).1
  · intro x hx
    rw [mergeProvenance_collector]
    exact hinv.wlNotRec x (hsub x hx)
  · intro x hx
    obtain ⟨px, hpx, hfnx, hasmx⟩ := hinv.gpMem x hx
    obtain ⟨p', hp', hfn', hasm'⟩ := @merge_lookup_fn env.parses e.2 p.provenance s x.2 px hpx
    exact ⟨p', hp', by rw [hfn', hfnx], by rw [hasm', hasmx]⟩
  · intro x hx
    exact hinv.gpWlDisj x (hsub x hx)
  · intro q hq hm0
    rw [mergeProvenance_collector] at hq
    obtain ⟨x, hxgp, hxpid, hxasm⟩ := hinv.newRec q hq hm0
    refine ⟨x, hxgp, hxpid, ?_⟩
    rw [lookupPrompt_merge_assemble]
    exact hxasm
  · rw [mergeProvenance_collector]
    exact hinv.passedInv
  · intro hdoc entry hentry r hr
    have hwf := hinv.provWF hdoc
    simp only [mergeProvenance, List.mem_map] at hentry
    obtain ⟨y, hy, hxy⟩ := hentry
    by_cases ht : y.1 = e.2
    · rw [if_pos ht] at hxy
      subst hxy
      dsimp only at hr ⊢
      rcases List.mem_append.mp hr with hr | hr
      · obtain ⟨hne, htid, hrn, o, ho⟩ := hwf y hy r hr
        refine ⟨hne, ?_, hrn, ?_⟩
        · rw [mergeProvenance_collector]
          exact htid
        · obtain ⟨o', ho', _, _⟩ := @merge_lookup_fn env.parses e.2 p.provenance s
            r.originalPrompt o ho
          exact ⟨o', ho'⟩
      · -- a record of the popped prompt is merged into the target: it cannot
        -- point at the target, whose text is the popped prompt's key
        obtain ⟨hne0, htid, hrn, o, ho⟩ := hwf (pid, p) (lookupPrompt_mem s pid p hp) r hr
        refine ⟨?_, ?_, hrn, ?_⟩
        · intro hbad
          obtain ⟨q, hq, hqne⟩ := hinv.wlProv hdoc pid (by simp) p hp r hr
          rw [hbad, ht, hpe] at hq
          cases Option.some.inj hq
          exact hqne (hpeasm.trans hekey)
        · rw [mergeProvenance_collector]
          exact htid
        · obtain ⟨o', ho', _, _⟩ := @merge_lookup_fn env.parses e.2 p.provenance s
            r.originalPrompt o ho
          exact ⟨o', ho'⟩
    · rw [if_neg ht] at hxy
      subst hxy
      obtain ⟨hne, htid, hrn, o, ho⟩ := hwf y hy r hr
      refine ⟨hne, ?_, hrn, ?_⟩
      · rw [mergeProvenance_collector]
        exact htid
      · obtain ⟨o', ho', _, _⟩ := @merge_lookup_fn env.parses e.2 p.provenance s
          r.originalPrompt o ho
        exact ⟨o', ho'⟩
  · intro hdoc x hx px hpx r hr
    obtain ⟨px0, hpx0, _⟩ := hinv.wlMem x (hsub x hx)
    have hxne : x ≠ e.2 := by
      intro hxe
      exact hinv.gpWlDisj x (hsub x hx) (hxe ▸ List.mem_map_of_mem (fun z => z.2) hemem)
    rw [merge_lookup_some e.2 p.provenance s x px0 hpx0, if_neg hxne] at hpx
    cases Option.some.inj hpx
    obtain ⟨q, hq, hqne⟩ := hinv.wlProv hdoc x (hsub x hx) _ hpx0 r hr
    obtain ⟨q', hq', _, hasmq⟩ := @merge_lookup_fn env.parses e.2 p.provenance s
      r.originalPrompt q hq
    refine ⟨q', hq', ?_⟩
    rw [hasmq]
    exact hqne

theorem lookupPrompt_prompts_congr (s₁ s₂ : GenState) (h : s₁.prompts = s₂.prompts) (x : Nat) :
    lookupPrompt x s₁ = lookupPrompt x s₂ := by
  unfold lookupPrompt
  rw [h]

theorem loopInv_fresh_step (env : Env) (temp : Rat) (fn : APIFunction) (D : Prop) (n0 m0 : Nat)
    (gp : List (List Char × Nat)) (wl0 : List Nat) (pid : Nat) (passed : Bool)
    (s : GenState) (p : PromptData) (s1 : GenState) (wl1 : List Nat) (passed1 : Bool)
    (hinv : LoopInv env fn D n0 m0 gp (wl0 ++ [pid]) passed s)
    (hp : lookupPrompt pid s = some p)
    (hfind : gp.find? (fun x => decide (x.1 = assemble env.parses p)) = none)
    (hPC : processCompletions env temp pid p (env.completions (assemble env.parses p) temp)
      (s, wl0, passed) = (s1, wl1, passed1)) :
    LoopInv env fn D n0 m0 (gp ++ [(assemble env.parses p, pid)]) wl1 passed1
      { s1 with collector := recordPromptInfo pid temp (env.completions (assemble env.parses p) temp) s1.collector } := by
  obtain ⟨news, g1, g2, g3, g4, g5, g6, g7, g8, g9, g10⟩ :=
    processCompletions_spec env temp pid p (env.completions (assemble env.parses p) temp)
      s wl0 passed hinv.state.collector
  rw [hPC] at g1 g2 g3 g6 g7 g8 g9 g10
  dsimp only at g1 g2 g3 g6 g7 g8 g9 g10
  have hpfn : p.fn = fn := by
    obtain ⟨p', hp', hfn⟩ := hinv.wlMem pid (by simp)
    rw [hp] at hp'
    cases hp'
    exact hfn
  have hpidlt : pid < s.nextPromptId := lookupPrompt_lt s pid p hinv.state.storeBound hp
  have hwl0lt : ∀ x ∈ wl0, x < s.nextPromptId := by
    intro x hx
    obtain ⟨px, hpx, _⟩ := hinv.wlMem x (List.mem_append_left _ hx)
    exact lookupPrompt_lt s x px hinv.state.storeBound hpx
  have hgplt : ∀ e ∈ gp, e.2 < s.nextPromptId := by
    intro e he
    obtain ⟨pe, hpe, _⟩ := hinv.gpMem e he
    exact lookupPrompt_lt s e.2 pe hinv.state.storeBound hpe
  have hpidnotwl0 : pid ∉ wl0 := by
    intro hmem
    exact (List.nodup_append.mp hinv.wlNodup).2.2 hmem (by simp)
  have hfresh : ∀ q ∈ s1.collector.promptInfos, q.promptId ≠ pid := by
    rw [g8]
    exact fun q hq => hinv.wlNotRec pid (by simp) q hq
  have hrec := recordPromptInfo_fresh pid temp
    (env.completions (assemble env.parses p) temp) s1.collector hfresh
  set s2 : GenState := { s1 with collector := recordPromptInfo pid temp (env.completions (assemble env.parses p) temp) s1.collector } with hs2
  have hprompts2 : s2.prompts = s.prompts ++ news := g2
  have hnext2 : s2.nextPromptId = s.nextPromptId + news.length := g1
  have hcol2 : s2.collector = { s1.collector with
      promptInfos := s1.collector.promptInfos ++
        [{ promptId := pid, id := s1.collector.promptInfos.length,
           file := str "prompt_" ++ natStr s1.collector.promptInfos.length ++ str ".js",
           temperature := temp,
           completions := env.completions (assemble env.parses p) temp }] } := hrec
  have hpis2 : s2.collector.promptInfos = s.collector.promptInfos ++
      [{ promptId := pid, id := s.collector.promptInfos.length,
         file := str "prompt_" ++ natStr s.collector.promptInfos.length ++ str ".js",
         temperature := temp,
         completions := env.completions (assemble env.parses p) temp }] := by
    rw [hcol2]
    dsimp only
    rw [g8]
  have htests2 : s2.collector.tests = s1.collector.tests := by
    rw [hcol2]
  have hkeys2 : (s2.prompts.map (fun e => e.1)).Nodup := by
    rw [hprompts2, List.map_append]
    refine List.Nodup.append hinv.state.keysNodup g5 ?_
    intro a ha1 ha2
    rw [List.mem_map] at ha1 ha2
    obtain ⟨e1, he1, hf1⟩ := ha1
    obtain ⟨e2, he2, hf2⟩ := ha2
    have b1 := hinv.state.storeBound e1 he1
    have b2 := (g4 e2 he2).1
    omega
  have hlook_old : ∀ x q, lookupPrompt x s = some q → lookupPrompt x s2 = some q := by
    intro x q hq
    rw [lookupPrompt_prompts_congr s2 { s with prompts := s.prompts ++ news } hprompts2 x]
    exact lookupPrompt_append s news x q hq
  have hlook_new : ∀ e ∈ news, lookupPrompt e.1 s2 = some e.2 := by
    intro e he
    refine lookupPrompt_of_mem s2 e hkeys2 ?_
    rw [hprompts2]
    exact List.mem_append_right _ he
  have hnews_shape : ∀ e ∈ news, ∃ tag c0 out tid q0,
      tid < s1.collector.tests.length ∧ q0 ∈ refine tag p c0 out ∧
      e.2 = { q0 with provenance := [⟨pid, tid, refinerName tag⟩] } := by
    intro e he
    obtain ⟨tag, c0, out, tid, _, htid, q0, hq0, heq⟩ := g6 e he
    exact ⟨tag, c0, out, tid, q0, htid, hq0, heq⟩
  refine ⟨?_, ?_, ?_, ?_, ?_, ?_, ?_, ?_, ?_, ?_, ?_, hinv.dimp⟩
  · -- StateInv
    refine ⟨?_, hkeys2, ?_, ?_, ?_, ?_⟩
    · intro x hx
      rw [hprompts2] at hx
      rw [hnext2]
      rcases List.mem_append.mp hx with hx | hx
      · have := hinv.state.storeBound x hx
        omega
      · exact (g4 x hx).2
    · show CollectorInv (recordPromptInfo pid temp (env.completions (assemble env.parses p) temp) s1.collector)
      exact recordPromptInfo_fresh_inv pid temp _ s1.collector g7 hfresh
    · intro q hq
      rw [hpis2] at hq
      rw [hnext2]
      rcases List.mem_append.mp hq with hq | hq
      · have := hinv.state.recBound q hq
        omega
      · rw [List.mem_singleton] at hq
        subst hq
        show pid < _
        omega
    · rw [hpis2, List.map_append]
      refine List.Nodup.append hinv.state.piPids (List.nodup_singleton _) ?_
      intro a ha1 ha2
      rw [List.mem_map] at ha1
      obtain ⟨q, hq, hqa⟩ := ha1
      rw [List.map_singleton, List.mem_singleton] at ha2
      exact hinv.wlNotRec pid (by simp) q hq (hqa.trans ha2)
    · -- RetryProvInv
      intro entry hentry hretry r hr
      rw [hprompts2] at hentry
      rcases List.mem_append.mp hentry with hentry | hentry
      · obtain ⟨q, hq, hqr⟩ := hinv.state.retryProv entry hentry hretry r hr
        exact ⟨q, hlook_old _ q hq, hqr⟩
      · obtain ⟨tag, c0, out, tid, q0, htid, hq0, heq⟩ := hnews_shape entry hentry
        rw [heq] at hretry
        have hq0r : q0.retry ≠ none := hretry
        have hpr : p.retry = none := refine_retry_guard tag p c0 out q0 hq0 hq0r
        rw [heq] at hr
        have hr' : r ∈ [(⟨pid, tid, refinerName tag⟩ : Provenance)] := hr
        rw [List.mem_singleton] at hr'
        subst hr'
        exact ⟨p, hlook_old pid p hp, hpr⟩
  · -- wlMem
    intro x hx
    rw [g3] at hx
    rcases List.mem_append.mp hx with hx | hx
    · obtain ⟨px, hpx, hfnx⟩ := hinv.wlMem x (List.mem_append_left _ hx)
      exact ⟨px, hlook_old x px hpx, hfnx⟩
    · rw [List.mem_map] at hx
      obtain ⟨e, he, hex⟩ := hx
      obtain ⟨tag, c0, out, tid, q0, htid, hq0, heq⟩ := hnews_shape e he
      refine ⟨e.2, hex ▸ hlook_new e he, ?_⟩
      rw [heq]
      show q0.fn = fn
      rw [(refine_fn_snips tag p c0 out q0 hq0).1, hpfn]
  · -- wlNodup
    rw [g3]
    refine List.Nodup.append (List.nodup_append.mp hinv.wlNodup).1 g5 ?_
    intro a ha1 ha2
    rw [List.mem_map] at ha2
    obtain ⟨e, he, hea⟩ := ha2
    have b1 := hwl0lt a ha1
    have b2 := (g4 e he).1
    omega
  · -- wlNotRec
    intro x hx q hq
    rw [g3] at hx
    rw [hpis2] at hq
    rcases List.mem_append.mp hq with hq | hq
    · rcases List.mem_append.mp hx with hx | hx
      · exact hinv.wlNotRec x (List.mem_append_left _ hx) q hq
      · rw [List.mem_map] at hx
        obtain ⟨e, he, hex⟩ := hx
        have b1 := hinv.state.recBound q hq
        have b2 := (g4 e he).1
        omega
    · rw [List.mem_singleton] at hq
      subst hq
      show pid ≠ x
      rcases List.mem_append.mp hx with hx | hx
      · intro hc
        exact hpidnotwl0 (hc ▸ hx)
      · rw [List.mem_map] at hx
        obtain ⟨e, he, hex⟩ := hx
        have b2 := (g4 e he).1
        omega
  · -- gpMem
    intro e he
    rcases List.mem_append.mp he with he | he
    · obtain ⟨pe, hpe, hfne, hasme⟩ := hinv.gpMem e he
      exact ⟨pe, hlook_old e.2 pe hpe, hfne, hasme⟩
    · rw [List.mem_singleton] at he
      subst he
      exact ⟨p, hlook_old pid p hp, hpfn, rfl⟩
  · -- gpKeys
    rw [List.map_append]
    refine List.Nodup.append hinv.gpKeys (List.nodup_singleton _) ?_
    intro a ha1 ha2
    rw [List.map_singleton, List.mem_singleton] at ha2
    subst ha2
    rw [List.mem_map] at ha1
    obtain ⟨e, he, hea⟩ := ha1
    have := List.find?_eq_none.mp hfind e he
    rw [decide_eq_true_eq] at this
    exact this hea
  · -- gpWlDisj
    intro x hx hmem
    rw [g3] at hx
    rw [List.map_append, List.mem_append] at hmem
    rcases hmem with hmem | hmem
    · rcases List.mem_append.mp hx with hx | hx
      · exact hinv.gpWlDisj x (List.mem_append_left _ hx) hmem
      · rw [List.mem_map] at hx hmem
        obtain ⟨e, he, hex⟩ := hx
        obtain ⟨e', he', hex'⟩ := hmem
        have b1 := (g4 e he).1
        have b2 := hgplt e' he'
        omega
    · rw [List.map_singleton, List.mem_singleton] at hmem
      subst hmem
      rcases List.mem_append.mp hx with hx | hx
      · exact hpidnotwl0 hx
      · rw [List.mem_map] at hx
        obtain ⟨e, he, hex⟩ := hx
        have b1 := (g4 e he).1
        omega
  · -- newRec
    intro q hq hm0
    rw [hpis2] at hq
    rcases List.mem_append.mp hq with hq | hq
    · obtain ⟨e, he, hepid, hasm⟩ := hinv.newRec q hq hm0
      refine ⟨e, List.mem_append_left _ he, hepid, ?_⟩
      rw [Option.map_eq_some'] at hasm
      obtain ⟨pq, hpq, hasm⟩ := hasm
      rw [hlook_old q.promptId pq hpq, Option.map_some', hasm]
    · rw [List.mem_singleton] at hq
      subst hq
      refine ⟨(assemble env.parses p, pid), List.mem_append_right _ (by simp), rfl, ?_⟩
      show (lookupPrompt pid s2).map (assemble env.parses) = _
      rw [hlook_old pid p hp, Option.map_some']
  · -- passedInv
    intro h1 t ht hn0
    rw [htests2] at ht
    obtain ⟨hpassed0, hrest⟩ := g10 h1
    exact hrest n0 (hinv.passedInv hpassed0) t ht hn0
  · -- provWF
    intro hdoc entry hentry r hr
    rw [hprompts2] at hentry
    rcases List.mem_append.mp hentry with hentry | hentry
    · obtain ⟨hne, htid, hrn, o, ho⟩ := hinv.provWF hdoc entry hentry r hr
      refine ⟨hne, ?_, hrn, o, hlook_old _ o ho⟩
      rw [htests2]
      exact Nat.lt_of_lt_of_le htid g9
    · obtain ⟨tag, c0, out, tid, q0, htid, hq0, heq⟩ := hnews_shape entry hentry
      rw [heq] at hr
      have hr' : r ∈ [(⟨pid, tid, refinerName tag⟩ : Provenance)] := hr
      rw [List.mem_singleton] at hr'
      subst hr'
      refine ⟨?_, ?_, refinerName_mem tag, p, hlook_old pid p hp⟩
      · show pid ≠ entry.1
        have := (g4 entry hentry).1
        omega
      · show tid < _
        rw [htests2]
        exact htid
  · -- wlProv
    intro hdoc x hx px hpx r hr
    rw [g3] at hx
    rcases List.mem_append.mp hx with hx | hx
    · obtain ⟨px0, hpx0, _⟩ := hinv.wlMem x (List.mem_append_left _ hx)
      rw [hlook_old x px0 hpx0] at hpx
      cases Option.some.inj hpx
      obtain ⟨q, hq, hqne⟩ := hinv.wlProv hdoc x (List.mem_append_left _ hx) _ hpx0 r hr
      exact ⟨q, hlook_old _ q hq, hqne⟩
    · rw [List.mem_map] at hx
      obtain ⟨e, he, hex⟩ := hx
      subst hex
      rw [hlook_new e he] at hpx
      cases Option.some.inj hpx
      obtain ⟨tag, c0, out, tid, q0, htid, hq0, heq⟩ := hnews_shape e he
      rw [heq] at hr
      have hr' : r ∈ [(⟨pid, tid, refinerName tag⟩ : Provenance)] := hr
      rw [List.mem_singleton] at hr'
      subst hr'
      refine ⟨p, hlook_old pid p hp, ?_⟩
      show assemble env.parses p ≠ assemble env.parses e.2
      rw [heq]
      have hpdoc : docOkB p.fn = true := by rw [hpfn]; exact hinv.dimp hdoc
      have hne := refine_output_text_ne env.parses tag p q0 c0 out hpdoc hq0
      intro hc
      apply hne
      rw [← assemble_provenance_irrel env.parses q0 [⟨pid, tid, refinerName tag⟩]]
      exact hc.symm

theorem processWorklist_inv (env : Env) (temp : Rat) (fn : APIFunction) (D : Prop) (n0 m0 : Nat) :
    ∀ (fuel : Nat) (gp : List (List Char × Nat)) (wl : List Nat) (passed : Bool) (s : GenState),
    LoopInv env fn D n0 m0 gp wl passed s →
    ∃ gp' wl', LoopInv env fn D n0 m0 gp' wl'
      (processWorklist env temp fuel gp wl passed s).2
      (processWorklist env temp fuel gp wl passed s).1 := by
  intro fuel
  induction fuel with
  | zero =>
    intro gp wl passed s hinv
    exact ⟨gp, wl, hinv⟩
  | succ fuel ih =>
    intro gp wl passed s hinv
    cases wl with
    | nil => exact ⟨gp, [], hinv⟩
    | cons a l =>
      have hne : (a :: l) ≠ [] := by simp
      have hg : (a :: l).getLast? = some ((a :: l).getLast hne) :=
        List.getLast?_eq_getLast _ hne
      set pid := (a :: l).getLast hne with hpid
      have hpid_mem : pid ∈ (a :: l) := List.getLast_mem hne
      have hwldec : (a :: l).dropLast ++ [pid] = a :: l :=
        List.dropLast_append_getLast hne
      obtain ⟨p, hlook, hpfn⟩ := hinv.wlMem pid hpid_mem
      have hinv' : LoopInv env fn D n0 m0 gp ((a :: l).dropLast ++ [pid]) passed s := by
        rw [hwldec]
        exact hinv
      cases hfind : gp.find? (fun x => decide (x.1 = assemble env.parses p)) with
      | some e =>
        have hred : processWorklist env temp (fuel + 1) gp (a :: l) passed s =
            processWorklist env temp fuel gp (a :: l).dropLast passed
              (mergeProvenance e.2 p.provenance s) := by
          simp only [processWorklist, hg, hlook, hfind]
        rw [hred]
        exact ih gp _ passed _ (loopInv_merge_step env fn D n0 m0 gp _ pid passed s p e
          hinv' hlook hfind)
      | none =>
        rcases hPC : processCompletions env temp pid p
            (env.completions (assemble env.parses p) temp) (s, (a :: l).dropLast, passed)
          with ⟨s1, wl1, passed1⟩
        have hred : processWorklist env temp (fuel + 1) gp (a :: l) passed s =
            processWorklist env temp fuel (gp ++ [(assemble env.parses p, pid)]) wl1 passed1
              { s1 with collector := recordPromptInfo pid temp (env.completions (assemble env.parses p) temp) s1.collector } := by
          simp only [processWorklist, hg, hlook, hfind, hPC]
        rw [hred]
        exact ih _ _ _ _ (loopInv_fresh_step env temp fn D n0 m0 gp ((a :: l).dropLast) pid
          passed s p s1 wl1 passed1 hinv' hlook hfind hPC)

theorem piIds_lt (c : CollectorState) (h : CollectorInv c) :
    ∀ q ∈ c.promptInfos, q.id < c.promptInfos.length := by
  intro q hq
  have : q.id ∈ c.promptInfos.map (fun q => q.id) := List.mem_map_of_mem _ hq
  rw [h.piIds] at this
  exact List.mem_range.mp this

theorem processTemperature_inv (env : Env) (sm : SnippetMap) (fn : APIFunction) (fuel : Nat)
    (temp : Rat) (s : GenState) (D : Prop) (hdimp : D → docOkB fn = true)
    (h : StateInv s) (hns : D → ProvWF s) :
    ∃ gp' wl', LoopInv env fn D s.collector.tests.length s.collector.promptInfos.length gp' wl'
      (processTemperature env sm fn fuel temp s).2
      (processTemperature env sm fn fuel temp s).1 := by
  have hred : processTemperature env sm fn fuel temp s =
      processWorklist env temp fuel [] [s.nextPromptId] false
        ⟨s.nextPromptId + 1, s.prompts ++ [(s.nextPromptId, { fn := fn, usageSnippets := (sm fn.functionName).getD [], options := defaultPromptOptions, retry := none, provenance := [] })], s.collector⟩ := rfl
  rw [hred]
  refine processWorklist_inv env temp fn D s.collector.tests.length
    s.collector.promptInfos.length fuel [] [s.nextPromptId] false _ ?_
  set p0 : PromptData := { fn := fn, usageSnippets := (sm fn.functionName).getD [], options := defaultPromptOptions, retry := none, provenance := [] } with hp0
  set s1 : GenState := (⟨s.nextPromptId + 1, s.prompts ++ [(s.nextPromptId, p0)], s.collector⟩ : GenState) with hs1
  have hlook0 : lookupPrompt s.nextPromptId s1 = some p0 :=
    lookupPrompt_alloc_self p0 s h.storeBound
  have hlook_old : ∀ x q, lookupPrompt x s = some q → lookupPrompt x s1 = some q :=
    fun x q hq => lookupPrompt_append s _ x q hq
  refine ⟨?_, ?_, List.nodup_singleton _, ?_, ?_, List.nodup_nil, ?_, ?_, ?_, ?_, ?_, hdimp⟩
  · refine ⟨?_, ?_, h.collector, ?_, h.piPids, ?_⟩
    · intro e he
      rcases List.mem_append.mp he with he | he
      · have := h.storeBound e he
        show e.1 < s.nextPromptId + 1
        omega
      · rw [List.mem_singleton] at he
        subst he
        show s.nextPromptId < s.nextPromptId + 1
        omega
    · show ((s.prompts ++ [(s.nextPromptId, p0)]).map (fun e => e.1)).Nodup
      rw [List.map_append]
      refine List.Nodup.append h.keysNodup (List.nodup_singleton _) ?_
      intro a ha1 ha2
      rw [List.map_singleton, List.mem_singleton] at ha2
      rw [List.mem_map] at ha1
      obtain ⟨e, he, hea⟩ := ha1
      have := h.storeBound e he
      show False
      rw [hea] at this
      rw [ha2] at this
      omega
    · intro q hq
      have := h.recBound q hq
      show q.promptId < s.nextPromptId + 1
      omega
    · intro entry hentry hretry r hr
      rcases List.mem_append.mp hentry with hentry | hentry
      · obtain ⟨q, hq, hqr⟩ := h.retryProv entry hentry hretry r hr
        exact ⟨q, hlook_old _ q hq, hqr⟩
      · rw [List.mem_singleton] at hentry
        subst hentry
        exact absurd rfl hretry
  · intro pid hpid
    rw [List.mem_singleton] at hpid
    subst hpid
    exact ⟨p0, hlook0, rfl⟩
  · intro pid hpid q hq
    rw [List.mem_singleton] at hpid
    subst hpid
    have := h.recBound q hq
    omega
  · intro e he
    cases he
  · intro pid _ hmem
    cases hmem
  · intro q hq hm0
    have := piIds_lt s.collector h.collector q hq
    omega
  · intro _ t ht hn0
    have := testIds_lt s.collector h.collector t ht
    omega
  · intro hdoc entry hentry r hr
    rcases List.mem_append.mp hentry with hentry | hentry
    · obtain ⟨hne, htid, hrn, o, ho⟩ := hns hdoc entry hentry r hr
      exact ⟨hne, htid, hrn, o, hlook_old _ o ho⟩
    · rw [List.mem_singleton] at hentry
      subst hentry
      cases hr
  · intro hdoc pid hpid p hp r hr
    rw [List.mem_singleton] at hpid
    subst hpid
    rw [hlook0] at hp
    cases Option.some.inj hp
    cases hr

theorem generateAndValidateTests_inv (env : Env) (sm : SnippetMap) (fn : APIFunction)
    (fuel : Nat) : ∀ (temps : List Rat) (s : GenState) (D : Prop),
    (D → docOkB fn = true) → StateInv s → (D → ProvWF s) →
    StateInv (generateAndValidateTests env sm fn fuel temps s) ∧
    (D → ProvWF (generateAndValidateTests env sm fn fuel temps s)) := by
  intro temps
  induction temps with
  | nil =>
    intro s D _ h hns
    exact ⟨h, hns⟩
  | cons t ts ih =>
    intro s D hdimp h hns
    obtain ⟨gp', wl', hinv⟩ := processTemperature_inv env sm fn fuel t s D hdimp h hns
    have hstep : generateAndValidateTests env sm fn fuel (t :: ts) s =
        if (processTemperature env sm fn fuel t s).2 = true
        then (processTemperature env sm fn fuel t s).1
        else generateAndValidateTests env sm fn fuel ts
          (processTemperature env sm fn fuel t s).1 := rfl
    rw [hstep]
    by_cases hr2 : (processTemperature env sm fn fuel t s).2 = true
    · rw [if_pos hr2]
      exact ⟨hinv.state, hinv.provWF⟩
    · rw [if_neg hr2]
      exact ih _ D hdimp hinv.state hinv.provWF

theorem runExperiment_inv (env : Env) (temps : List Rat) (sm : SnippetMap) (fuel : Nat)
    (clock0 deadline : Nat) : ∀ (fns : List APIFunction) (s : GenState) (D : Prop),
    (D → ∀ fn ∈ fns, docOkB fn = true) → StateInv s → (D → ProvWF s) →
    StateInv (runExperiment env temps sm fuel clock0 deadline fns s).1 ∧
    (D → ProvWF (runExperiment env temps sm fuel clock0 deadline fns s).1) := by
  intro fns
  induction fns with
  | nil =>
    intro s D _ h hns
    exact ⟨h, hns⟩
  | cons fn fns ih =>
    intro s D hdocs h hns
    have hstep : runExperiment env temps sm fuel clock0 deadline (fn :: fns) s =
        if deadline < clock0 + s.collector.promptInfos.length then (s, [])
        else
          ((runExperiment env temps sm fuel clock0 deadline fns
              (generateAndValidateTests env sm fn fuel temps s)).1,
           (clock0 + s.collector.promptInfos.length) ::
             (runExperiment env temps sm fuel clock0 deadline fns
               (generateAndValidateTests env sm fn fuel temps s)).2) := rfl
    rw [hstep]
    by_cases hd : deadline < clock0 + s.collector.promptInfos.length
    · rw [if_pos hd]
      exact ⟨h, hns⟩
    · rw [if_neg hd]
      obtain ⟨h', hns'⟩ := generateAndValidateTests_inv env sm fn fuel temps s D
        (fun hD => hdocs hD fn (List.mem_cons_self _ _)) h hns
      obtain ⟨h'', hns''⟩ := ih (generateAndValidateTests env sm fn fuel temps s) D
        (fun hD g hg => hdocs hD g (List.mem_cons_of_mem _ hg)) h' hns'
      exact ⟨h'', hns''⟩

/- ------------------------------------------------------------------ -/
/- Concrete fixtures for the claim theorems                            -/
/- ------------------------------------------------------------------ -/

/-- A function under test: `p()` of package `pkg`, no doc comment, no
implementation. -/
def fnP : APIFunction :=
  { accessPath := str "p",
    descriptor := { signature := str "()", isAsync := false, implementation := [],
                    isConstructor := false, docComment := none },
    packageName := str "pkg" }

/-- A function whose doc comment is present but renders to the empty string
when commented out, so that DocCommentIncluder's refinement does not change
the assembled prompt text. -/
def fnBadDoc : APIFunction :=
  { accessPath := str "p",
    descriptor := { signature := str "()", isAsync := false, implementation := [],
                    isConstructor := false, docComment := some [] },
    packageName := str "pkg" }

/-- Collaborators whose validator fails every test. -/
def envFail : Env :=
  { parses := fun _ => true,
    completions := fun _ _ => [str "x"],
    validate := fun _ _ => .failed { message := str "boom", errCode := none, stack := none } }

/-- Collaborators whose validator passes every test. -/
def envPass : Env :=
  { parses := fun _ => true,
    completions := fun _ _ => [str "x"],
    validate := fun _ _ => .passed none none }

/-- The empty snippet map. -/
def smEmpty : SnippetMap := fun _ => none

instance instDecNoSelfProv (s : GenState) : Decidable (NoSelfProv s) := by
  unfold NoSelfProv
  infer_instance

instance instDecRetryProvInv (s : GenState) : Decidable (RetryProvInv s) := by
  unfold RetryProvInv
  infer_instance

instance instDecStateInv (s : GenState) : Decidable (StateInv s) := by
  have : Decidable (CollectorInv s.collector) := by
    have h : CollectorInv s.collector ↔
        (s.collector.tests.map (fun t => t.id) = List.range s.collector.tests.length ∧
         (s.collector.tests.map (fun t => t.testSource)).Nodup ∧
         (∀ t ∈ s.collector.tests, t.prompts ≠ []) ∧
         s.collector.promptInfos.map (fun q => q.id) =
           List.range s.collector.promptInfos.length) :=
      ⟨fun ⟨a, b, c, d⟩ => ⟨a, b, c, d⟩, fun ⟨a, b, c, d⟩ => ⟨a, b, c, d⟩⟩
    exact decidable_of_iff _ h.symm
  have h2 : StateInv s ↔
      ((∀ e ∈ s.prompts, e.1 < s.nextPromptId) ∧
       (s.prompts.map (fun e => e.1)).Nodup ∧
       CollectorInv s.collector ∧
       (∀ q ∈ s.collector.promptInfos, q.promptId < s.nextPromptId) ∧
       (s.collector.promptInfos.map (fun q => q.promptId)).Nodup ∧
       RetryProvInv s) :=
    ⟨fun ⟨a, b, c, d, e, f⟩ => ⟨a, b, c, d, e, f⟩, fun ⟨a, b, c, d, e, f⟩ => ⟨a, b, c, d, e, f⟩⟩
  exact decidable_of_iff _ h2.symm

/- ------------------------------------------------------------------ -/
/- Claim theorems                                                      -/
/- ------------------------------------------------------------------ -/

/-- C9: retry non-chaining.  In every state reachable by running the engine
from the initial state — over any collaborators, temperature list, snippet
map, fuel, clock and function worklist — no retry prompt carries a
provenance record whose `originalPrompt` is itself a retry prompt: every
such record dereferences to a stored prompt with `retry = none`.  The
`RetryWithError` guard (`refine` emits a retry prompt only for a non-retry
original with a failed outcome) is preserved by provenance merging because
a retry prompt's assembled text never coincides with a plain prompt's. -/
theorem retry_non_chaining (env : Env) (temps : List Rat) (sm : SnippetMap)
    (fuel clock0 deadline : Nat) (fns : List APIFunction) :
    RetryProvInv (runExperiment env temps sm fuel clock0 deadline fns initState).1 :=
  (runExperiment_inv env temps sm fuel clock0 deadline fns initState False
    False.elim stateInv_init False.elim).1.retryProv

/-- C4 (counterexample): provenance self-distinctness fails.  For a function
whose doc comment renders to the empty string when commented out,
DocCommentIncluder's refined prompt assembles to exactly the same text as
the original prompt; when that duplicate is popped from the worklist its
provenance records are merged into the original prompt object, giving the
initial prompt a record with `originalPrompt` equal to the prompt itself —
a self-loop, so the provenance graph is not a DAG. -/
theorem provenance_self_loop_cex :
    ¬ NoSelfProv (runExperiment envFail [(0 : Rat)] smEmpty 5 0 100 [fnBadDoc]
      initState).1 := by decide

/-- C4 (amended): provenance record well-formedness.  If every processed
function's doc comment is absent or renders to a non-empty comment block
when commented out (`docOkB`) — the proviso under which every refinement
changes the assembled text, so a record merged on a duplicate pop can never
point at the prompt receiving it — then in every state reachable from the
initial state, every provenance record stored in a prompt references an
`originalPrompt` that is distinct from that prompt (the provenance graph
has no self-loops, which is the failure mode of the counterexample) and
dereferences to a stored prompt, and carries a `testId` the collector had
already assigned and a refiner name drawn from the live refiner set. -/
theorem provenance_record_wf (env : Env) (temps : List Rat) (sm : SnippetMap)
    (fuel clock0 deadline : Nat) (fns : List APIFunction)
    (hdocs : ∀ fn ∈ fns, docOkB fn = true) :
    ProvWF (runExperiment env temps sm fuel clock0 deadline fns initState).1 ∧
    NoSelfProv (runExperiment env temps sm fuel clock0 deadline fns initState).1 := by
  have h := (runExperiment_inv env temps sm fuel clock0 deadline fns initState
    (∀ fn ∈ fns, docOkB fn = true) (fun hD => hD) stateInv_init
    (fun _ _ he => absurd he (List.not_mem_nil _))).2 hdocs
  exact ⟨h, fun e he r hr => (h e he r hr).1⟩

theorem provenance_record_wf_witness :
    (∀ fn ∈ [fnP], docOkB fn = true) ∧
    (ProvWF (runExperiment envFail [(0 : Rat)] smEmpty 5 0 100 [fnP] initState).1 ∧
     NoSelfProv (runExperiment envFail [(0 : Rat)] smEmpty 5 0 100 [fnP] initState).1) :=
  ⟨by decide, provenance_record_wf envFail [(0 : Rat)] smEmpty 5 0 100 [fnP] (by decide)⟩

/-- C1: test-source uniqueness.  Over any run of the engine from the initial
state, the test-info records held by the collector have pairwise-distinct
test sources; and `recordTestInfo`, called with an already-recorded source,
returns the existing test-info with the prompt appended to its prompts list
and updates that record in place instead of creating a second record. -/
theorem testSource_uniqueness (env : Env) (temps : List Rat) (sm : SnippetMap)
    (fuel clock0 deadline : Nat) (fns : List APIFunction) :
    (((runExperiment env temps sm fuel clock0 deadline fns initState).1.collector.tests.map
      (fun t => t.testSource)).Nodup) ∧
    (∀ (source : List Char) (pid : Nat) (api : List Char) (c : CollectorState) (t : TestInfo),
      c.tests.find? (fun u => decide (u.testSource = source)) = some t →
      recordTestInfo source pid api c =
        ({ t with prompts := t.prompts ++ [pid] },
         { c with tests := c.tests.map (fun u =>
             if u.testSource = source then { t with prompts := t.prompts ++ [pid] } else u) })) :=
  ⟨(runExperiment_inv env temps sm fuel clock0 deadline fns initState False
      False.elim stateInv_init False.elim).1.collector.srcsNodup,
   fun source pid api c t h => recordTestInfo_found source pid api c t h⟩

/-- A one-test collector used to witness the dedup branch of C1. -/
def cW : CollectorState :=
  { tests := [{ id := 0, testName := str "t0.js", outcome := .other,
                testSource := str "src", prompts := [0], api := str "p" }],
    promptInfos := [] }

theorem testSource_uniqueness_witness :
    (cW.tests.find? (fun u => decide (u.testSource = str "src")) =
      some { id := 0, testName := str "t0.js", outcome := .other,
             testSource := str "src", prompts := [0], api := str "p" }) ∧
    recordTestInfo (str "src") 1 (str "p") cW =
      ({ id := 0, testName := str "t0.js", outcome := .other,
         testSource := str "src", prompts := [0, 1], api := str "p" },
       { cW with tests := [{ id := 0, testName := str "t0.js", outcome := .other, testSource := str "src", prompts := [0, 1], api := str "p" }] }) := by
  refine ⟨by decide, ?_⟩
  have h := (testSource_uniqueness envFail [] smEmpty 0 0 0 []).2 (str "src") 1 (str "p") cW
    { id := 0, testName := str "t0.js", outcome := .other,
      testSource := str "src", prompts := [0], api := str "p" } (by decide)
  rw [h]
  decide

/-- C3: pass-skipping.  If, while processing the first temperature of the
configured list for a function, the engine records a test with outcome
Passed (a test created during that pass, i.e. with an id at or beyond the
test count at the start of the pass), then `generateAndValidateTests` stops
there: its final state is exactly the state after that temperature, so no
prompt is assembled, sent to the model, or recorded at any later
temperature. -/
theorem pass_skipping (env : Env) (sm : SnippetMap) (fn : APIFunction) (fuel : Nat)
    (t : Rat) (rest : List Rat) (s : GenState) (h : StateInv s)
    (hpass : ∃ tst ∈ (processTemperature env sm fn fuel t s).1.collector.tests,
      s.collector.tests.length ≤ tst.id ∧ tst.outcome.isPassed = true) :
    generateAndValidateTests env sm fn fuel (t :: rest) s =
      (processTemperature env sm fn fuel t s).1 := by
  obtain ⟨gp', wl', hinv⟩ := processTemperature_inv env sm fn fuel t s False
    False.elim h False.elim
  have hr2 : (processTemperature env sm fn fuel t s).2 = true := by
    by_contra hc
    obtain ⟨tst, htst, hid, hps⟩ := hpass
    have := hinv.passedInv (Bool.eq_false_iff.mpr hc) tst htst hid
    rw [hps] at this
    cases this
  have hstep : generateAndValidateTests env sm fn fuel (t :: rest) s =
      if (processTemperature env sm fn fuel t s).2 = true
      then (processTemperature env sm fn fuel t s).1
      else generateAndValidateTests env sm fn fuel rest
        (processTemperature env sm fn fuel t s).1 := rfl
  rw [hstep, if_pos hr2]

theorem pass_skipping_witness :
    StateInv initState ∧
    (∃ tst ∈ (processTemperature envPass smEmpty fnP 3 0 initState).1.collector.tests,
      initState.collector.tests.length ≤ tst.id ∧ tst.outcome.isPassed = true) ∧
    generateAndValidateTests envPass smEmpty fnP 3 [0, 1] initState =
      (processTemperature envPass smEmpty fnP 3 0 initState).1 :=
  ⟨stateInv_init, by decide,
   pass_skipping envPass smEmpty fnP 3 0 [1] initState stateInv_init (by decide)⟩

/-- C5 (counterexample): prompt-text dedup fails across temperatures.  The
`generatedPrompts` map is re-created for each temperature, so running the
same function at two temperatures records prompt-info entries whose prompts
assemble to the same texts twice: over the whole run the multiset of
recorded assembled texts has duplicates. -/
theorem promptText_dedup_cex :
    ¬ (((generateAndValidateTests envFail smEmpty fnP 5 [0, 1] initState).collector.promptInfos.map
        (fun q => (lookupPrompt q.promptId
          (generateAndValidateTests envFail smEmpty fnP 5 [0, 1] initState)).map
          (assemble envFail.parses))).Nodup) := by decide

/-- C5 (amended): prompt-text dedup holds within one temperature.  Among the
prompt-info entries recorded during a single temperature pass (ids at or
beyond the prompt-info count at the start of the pass), distinct entries
always have distinct assembled prompt texts. -/
theorem promptText_dedup_per_temperature (env : Env) (sm : SnippetMap) (fn : APIFunction)
    (fuel : Nat) (temp : Rat) (s : GenState) (h : StateInv s) :
    ∀ q1 ∈ (processTemperature env sm fn fuel temp s).1.collector.promptInfos,
    ∀ q2 ∈ (processTemperature env sm fn fuel temp s).1.collector.promptInfos,
    s.collector.promptInfos.length ≤ q1.id → s.collector.promptInfos.length ≤ q2.id →
    q1 ≠ q2 →
    (lookupPrompt q1.promptId (processTemperature env sm fn fuel temp s).1).map
      (assemble env.parses) ≠
    (lookupPrompt q2.promptId (processTemperature env sm fn fuel temp s).1).map
      (assemble env.parses) := by
  obtain ⟨gp', wl', hinv⟩ := processTemperature_inv env sm fn fuel temp s False
    False.elim h False.elim
  intro q1 h1 q2 h2 hid1 hid2 hne heq
  obtain ⟨e1, he1, hpid1, hasm1⟩ := hinv.newRec q1 h1 hid1
  obtain ⟨e2, he2, hpid2, hasm2⟩ := hinv.newRec q2 h2 hid2
  rw [hasm1, hasm2] at heq
  have he12 : e1 = e2 := List.inj_on_of_nodup_map hinv.gpKeys he1 he2 (Option.some.inj heq)
  have hpp : q1.promptId = q2.promptId := by rw [← hpid1, he12, hpid2]
  exact hne (List.inj_on_of_nodup_map hinv.state.piPids h1 h2 hpp)

theorem promptText_dedup_per_temperature_witness :
    StateInv initState ∧
    (∀ q1 ∈ (processTemperature envFail smEmpty fnP 5 0 initState).1.collector.promptInfos,
     ∀ q2 ∈ (processTemperature envFail smEmpty fnP 5 0 initState).1.collector.promptInfos,
     initState.collector.promptInfos.length ≤ q1.id →
     initState.collector.promptInfos.length ≤ q2.id → q1 ≠ q2 →
     (lookupPrompt q1.promptId (processTemperature envFail smEmpty fnP 5 0 initState).1).map
       (assemble envFail.parses) ≠
     (lookupPrompt q2.promptId (processTemperature envFail smEmpty fnP 5 0 initState).1).map
       (assemble envFail.parses)) :=
  ⟨stateInv_init, promptText_dedup_per_temperature envFail smEmpty fnP 5 0 initState stateInv_init⟩

/-- The property the spec ascribes to the loop: the wall-clock deadline is
checked before each worklist-item dequeue.  In query-count time (the only
suspension point is the completion query, so the clock is `clock0` plus the
number of queries issued, and the prompt info with id `i` is recorded by the
query issued at clock `clock0 + i`), this says every recorded prompt's query
started no later than the deadline. -/
def deadlineCheckedPerPrompt (clock0 deadline : Nat) (s : GenState) : Prop :=
  ∀ q ∈ s.collector.promptInfos, clock0 + q.id ≤ deadline

instance instDecDeadline (clock0 deadline : Nat) (s : GenState) :
    Decidable (deadlineCheckedPerPrompt clock0 deadline s) := by
  unfold deadlineCheckedPerPrompt
  infer_instance

/-- C6 (counterexample): the deadline is not checked per worklist item.  With
the deadline already expired after the first query, a failing run of a
single function keeps dequeuing prompts and issuing queries: a prompt info
with id `1` is recorded although its query started at clock `1 > 0 =
deadline`.  The per-function check in `runExperiment` is the only deadline
check. -/
theorem deadline_per_prompt_cex :
    ¬ deadlineCheckedPerPrompt 0 0
      (runExperiment envFail [(0 : Rat)] smEmpty 5 0 0 [fnP] initState).1 := by decide

/-- C6 (amended): the deadline is checked before each function, not before
each prompt.  Every deadline check that passes observes a clock value within
the deadline (the log returned by `runExperiment` records the clock at each
passed check), and when the deadline has expired at the head of the function
worklist, the run aborts returning the accumulated state unchanged — all
recorded tests and prompts retained — and discards the remaining
functions. -/
theorem deadline_per_function (env : Env) (temps : List Rat) (sm : SnippetMap)
    (fuel clock0 deadline : Nat) (fns : List APIFunction) (s : GenState) :
    (∀ time ∈ (runExperiment env temps sm fuel clock0 deadline fns s).2, time ≤ deadline) ∧
    (∀ fn fns', fns = fn :: fns' →
      deadline < clock0 + s.collector.promptInfos.length →
      runExperiment env temps sm fuel clock0 deadline fns s = (s, [])) := by
  constructor
  · induction fns generalizing s with
    | nil =>
      intro time ht
      cases ht
    | cons fn fns ih =>
      intro time ht
      have hstep : runExperiment env temps sm fuel clock0 deadline (fn :: fns) s =
          if deadline < clock0 + s.collector.promptInfos.length then (s, [])
          else
            ((runExperiment env temps sm fuel clock0 deadline fns
                (generateAndValidateTests env sm fn fuel temps s)).1,
             (clock0 + s.collector.promptInfos.length) ::
               (runExperiment env temps sm fuel clock0 deadline fns
                 (generateAndValidateTests env sm fn fuel temps s)).2) := rfl
      rw [hstep] at ht
      by_cases hd : deadline < clock0 + s.collector.promptInfos.length
      · rw [if_pos hd] at ht
        cases ht
      · rw [if_neg hd] at ht
        rcases List.mem_cons.mp ht with ht | ht
        · subst ht
          omega
        · exact ih _ time ht
  · intro fn fns' hfns hd
    subst hfns
    have hstep : runExperiment env temps sm fuel clock0 deadline (fn :: fns') s =
        if deadline < clock0 + s.collector.promptInfos.length then (s, [])
        else
          ((runExperiment env temps sm fuel clock0 deadline fns'
              (generateAndValidateTests env sm fn fuel temps s)).1,
           (clock0 + s.collector.promptInfos.length) ::
             (runExperiment env temps sm fuel clock0 deadline fns'
               (generateAndValidateTests env sm fn fuel temps s)).2) := rfl
    rw [hstep, if_pos hd]

/-- A state with one recorded prompt info, used to witness the expiry branch
of the amended C6 theorem. -/
def sOnePI : GenState :=
  ⟨1, [],
    ⟨[], [{ promptId := 0, id := 0, file := str "prompt_0.js", temperature := 0, completions := [] }]⟩⟩

theorem deadline_per_function_witness :
    ((0 : Nat) ∈ (runExperiment envFail [(0 : Rat)] smEmpty 5 0 0 [fnP] initState).2 ∧
      (0 : Nat) ≤ 0) ∧
    ((0 : Nat) < 0 + sOnePI.collector.promptInfos.length ∧
      runExperiment envFail [(0 : Rat)] smEmpty 5 0 0 [fnP] sOnePI = (sOnePI, [])) :=
  ⟨⟨by decide,
    (deadline_per_function envFail [(0 : Rat)] smEmpty 5 0 0 [fnP] initState).1 0 (by decide)⟩,
   ⟨by decide,
    (deadline_per_function envFail [(0 : Rat)] smEmpty 5 0 0 [fnP] sOnePI).2 fnP [] rfl
      (by decide)⟩⟩
